import Mathlib

/-!
# PE image introspection: `_ValidateImageBase`, `_FindPESection`,
# `_IsNonwritableInCurrentImage`

A shallow embedding of the three routines and the properties of the
specification that concern them.

Memory model.  The routines receive a raw pointer `pImageBase` and read bytes
at offsets from it.  The image is a list of bytes; a pointer into the image is
its byte offset from `pImageBase` (an `Int`, since the PE offset is a signed
32-bit field and may be negative).  A read that starts outside the list has no
defined behaviour in C: reads return `Option`, and every routine returns
`none` as soon as a read it performs lies outside the image.  `NULL` is the
inner `none` of `_FindPESection`: a descriptor pointer is the image base plus
an offset between `-2^31` and a few multiples of `2^32`, which from the base
`0x140000000` is never the null address and never wraps the 64-bit address
space, so offsets are kept as unreduced integers.
-/

namespace PE

/-! ## Bytes and little-endian fields -/

/-- The mapped bytes of the image, starting at `pImageBase`. -/
abbrev Image := List Nat

/-- One byte at offset `o` from the image base; `none` outside the image. -/
def rd8 (img : Image) (o : Int) : Option Nat :=
  if o < 0 then none else (img.get? o.toNat).map (fun b => b % 256)

/-- The 16-bit little-endian field at offset `o`, as in `*(ushort *)(p + o)`. -/
def rd16 (img : Image) (o : Int) : Option Nat := do
  let b0 ← rd8 img o
  let b1 ← rd8 img (o + 1)
  pure (b0 + 256 * b1)

/-- The 32-bit little-endian field at offset `o`, as in `*(uint *)(p + o)`. -/
def rd32 (img : Image) (o : Int) : Option Nat := do
  let b0 ← rd8 img o
  let b1 ← rd8 img (o + 1)
  let b2 ← rd8 img (o + 2)
  let b3 ← rd8 img (o + 3)
  pure (b0 + 256 * b1 + 65536 * b2 + 16777216 * b3)

/-- A 16-bit pattern read as a C `short`. -/
def toInt16 (x : Nat) : Int := if x < 2 ^ 15 then (x : Int) else (x : Int) - 2 ^ 16

/-- A 32-bit pattern read as a C `int`. -/
def toInt32 (x : Nat) : Int := if x < 2 ^ 31 then (x : Int) else (x : Int) - 2 ^ 32

/-! ## Layout of `IMAGE_SECTION_HEADER` -/

/-- The declaration of `IMAGE_SECTION_HEADER` is not part of the sources: the
record size (`p_Var2 + 1`) and the offsets of the three fields the code
dereferences are parameters of the embedding. -/
structure SectionLayout where
  size : Nat
  offMisc : Nat
  offVirtualAddress : Nat
  offCharacteristics : Nat
  deriving DecidableEq

/-- Modelled from the spec: the declaration of `IMAGE_SECTION_HEADER` is
missing from the sources.  The record has the 40 bytes of the spec; the spec
gives no field offsets, and this instance, used for the concrete images, takes
those of the platform header: `Misc` at 8, `VirtualAddress` at 12,
`Characteristics` at 36.  The general theorems hold for every layout; the
order of the two fields that the spec describes is that of `SpecLayout`. -/
def stdLayout : SectionLayout :=
  SectionLayout.mk 40 8 12 36

/-! ## `_ValidateImageBase` -/

/-- Embedding of `BOOL _ValidateImageBase(PBYTE pImageBase)`.  The three tests are evaluated
left to right under `&&`; the field at `0x3c` is read once per test that uses
it, as in the source. -/
def _ValidateImageBase (img : Image) : Option Nat := do
  let dosMagic ← rd16 img 0
  if toInt16 dosMagic = 0x5a4d then
    let lfanew ← rd32 img 0x3c
    let sig ← rd32 img (toInt32 lfanew)
    if toInt32 sig = 0x4550 then
      let lfanew2 ← rd32 img 0x3c
      let optMagic ← rd16 img (toInt32 lfanew2 + 0x18)
      if toInt16 optMagic = 0x20b then pure 1 else pure 0
    else pure 0
  else pure 0

/-! ## `_FindPESection` -/

/-- The range test of the scan loop on the descriptor at `p_Var2`:
`p_Var2->VirtualAddress <= rva && rva < p_Var2->Misc + p_Var2->VirtualAddress`.
`VirtualAddress` and `Misc` are 32-bit, their sum is a 32-bit sum, `rva` is a
64-bit value compared with the zero-extended operands; `Misc` is read only
when the first comparison succeeds. -/
def rangeTest (L : SectionLayout) (img : Image) (p_Var2 : Int) (rva : Nat) : Option Bool := do
  let va ← rd32 img (p_Var2 + L.offVirtualAddress)
  if va ≤ rva then
    let misc ← rd32 img (p_Var2 + L.offMisc)
    pure (decide (rva < (misc + va) % 2 ^ 32))
  else pure false

/-- The `do { ... } while (uVar3 < count)` loop of `_FindPESection`, entered at
descriptor pointer `p_Var2` with counter `uVar3`.  The first argument bounds
the number of iterations; `_FindPESection` supplies `2 ^ 16`, which the 16-bit
section count never reaches. -/
def scanLoop (L : SectionLayout) (img : Image) (iVar1 : Int) (rva : Nat) :
    Nat → Int → Nat → Option (Option Int)
  | 0, _, _ => none
  | fuel + 1, p_Var2, uVar3 => do
    let hit ← rangeTest L img p_Var2 rva
    if hit then pure (some p_Var2)
    else
      let uVar3 := (uVar3 + 1) % 2 ^ 32
      let count ← rd16 img (iVar1 + 6)
      if uVar3 < count then scanLoop L img iVar1 rva fuel (p_Var2 + L.size) uVar3
      else pure none

/-- Embedding of `PIMAGE_SECTION_HEADER _FindPESection(PBYTE pImageBase, DWORD_PTR rva)`.
The result is `some (some p)` for a descriptor at offset `p`, `some none` for
`NULL`, and `none` when a read left the image. -/
def _FindPESection (L : SectionLayout) (img : Image) (rva : Nat) : Option (Option Int) := do
  let iVar1 := toInt32 (← rd32 img 0x3c)
  let sizeOfOptionalHeader ← rd16 img (iVar1 + 0x14)
  let p_Var2 : Int := (sizeOfOptionalHeader : Int) + 0x18 + iVar1
  let count ← rd16 img (iVar1 + 6)
  if count ≠ 0 then scanLoop L img iVar1 rva (2 ^ 16) p_Var2 0
  else pure none

/-! ## `_IsNonwritableInCurrentImage` -/

/-- The address `&IMAGE_DOS_HEADER_140000000` of the current image. -/
def imageBase : Nat := 0x140000000

/-- The pointer `pTarget + -0x140000000` as a 64-bit value. -/
def rvaOf (pTarget : Nat) : Nat := (pTarget + (2 ^ 64 - imageBase)) % 2 ^ 64

/-- Embedding of `BOOL _IsNonwritableInCurrentImage(PBYTE pTarget)`; `img` holds the bytes
mapped at `&IMAGE_DOS_HEADER_140000000`. -/
def _IsNonwritableInCurrentImage (L : SectionLayout) (img : Image) (pTarget : Nat) :
    Option Nat := do
  let uVar1 ← _ValidateImageBase img
  if uVar1 ≠ 0 then
    match ← _FindPESection L img (rvaOf pTarget) with
    | some p_Var2 =>
      let characteristics ← rd32 img (p_Var2 + L.offCharacteristics)
      pure ((2 ^ 32 - 1 - characteristics / 2 ^ 31) % 2)
    | none => pure 0
  else pure uVar1

/-! ## Building images -/

/-- The two bytes of a 16-bit little-endian field. -/
def le16 (v : Nat) : List Nat := [v % 256, v / 256 % 256]

/-- The four bytes of a 32-bit little-endian field. -/
def le32 (v : Nat) : List Nat := [v % 256, v / 256 % 256, v / 65536 % 256, v / 16777216 % 256]

/-- A 40-byte descriptor of `stdLayout`. -/
def mkSection (va vsize characteristics : Nat) : List Nat :=
  List.replicate 8 0 ++ le32 vsize ++ le32 va ++ List.replicate 20 0 ++ le32 characteristics

/-- An image with the PE header at `0x40`, an optional header of two bytes
holding `optMagic`, section count `count` and the given bytes as section
table. -/
def mkImage (dosMagic sig optMagic count : Nat) (table : List Nat) : Image :=
  le16 dosMagic ++ List.replicate 58 0 ++ le32 0x40 ++ le32 sig ++ le16 0 ++ le16 count
    ++ List.replicate 12 0 ++ le16 2 ++ le16 0 ++ le16 optMagic ++ table

/-- The scenario of the spec: `.text` at `[0x1000, 0x2000)` without the write
bit, `.data` at `[0x2000, 0x3000)` with it. -/
def scenario : Image :=
  mkImage 0x5a4d 0x4550 0x20b 2
    (mkSection 0x1000 0x1000 0x60000020 ++ mkSection 0x2000 0x1000 0xC0000040)


/-- One section whose 32-bit sum `VirtualAddress + VirtualSize` overflows:
`VirtualAddress = 0xFFFFF000`, `VirtualSize = 0x2000`. -/
def wrapImage : Image :=
  mkImage 0x5a4d 0x4550 0x20b 1 (mkSection 0xFFFFF000 0x2000 0x60000020)

/-- Four sections: `[0x1000, 0x3000)`, then `[0x2000, 0x3000)` inside the
first, then an empty one at `0x4000`, then one at `0xFFFFF000` of size
`0x2000`. -/
def boundaryImage : Image :=
  mkImage 0x5a4d 0x4550 0x20b 4
    (mkSection 0x1000 0x2000 0x60000020 ++ mkSection 0x2000 0x1000 0xC0000040 ++
      mkSection 0x4000 0 0x40000040 ++ mkSection 0xFFFFF000 0x2000 0x40000040)

/-- One section at `[0x80000000, 0x80001000)`: bit 31 of `VirtualAddress` is set. -/
def highImage : Image :=
  mkImage 0x5a4d 0x4550 0x20b 1 (mkSection 0x80000000 0x1000 0x60000020)

/-- A valid header with section count 0; the image ends where the section
table would start. -/
def emptyTableImage : Image := mkImage 0x5a4d 0x4550 0x20b 0 []

/-- Two bytes that are not `MZ`; there is no field at `0x3c`. -/
def badDosImage : Image := [0x4D, 0x00]

/-- A correct DOS magic and a wrong signature at the PE offset; the image
ends before the optional-header magic. -/
def badSigImage : Image :=
  le16 0x5a4d ++ List.replicate 58 0 ++ le32 0x40 ++ le32 0x4551

/-- A correct DOS magic and signature with the PE32 magic `0x010B`. -/
def pe32Image : Image := mkImage 0x5a4d 0x4550 0x10b 0 []


/-! ## Reading the header and the section table -/

/-- The header fields `_ValidateImageBase` examines lie inside the image and
hold `dos` (offset 0), PE offset `pe` (the `int` at `0x3c`), `sig` (offset
`pe`) and `magic` (offset `pe + 0x18`). -/
structure Header (img : Image) (dos : Nat) (pe : Int) (sig magic : Nat) : Prop where
  dosMagic : rd16 img 0 = some dos
  lfanew : (rd32 img 0x3c).map toInt32 = some pe
  signature : rd32 img pe = some sig
  optMagic : rd16 img (pe + 0x18) = some magic

/-- Offset from the image base of descriptor `i` of the section table, for PE
offset `pe` and optional-header size `soh`: the initial `p_Var2` advanced `i`
times. -/
def descPtr (L : SectionLayout) (pe : Int) (soh : Nat) (i : Nat) : Int :=
  (soh : Int) + 0x18 + pe + (L.size : Int) * (i : Int)

/-- The file-header fields and the section table `_FindPESection` walks lie
inside the image: PE offset `pe`, optional-header size `soh`, section count
`n`, and for each `i < n` descriptor `i` holds `VirtualAddress = va i` and
`Misc = vs i`. -/
structure SectionTable (L : SectionLayout) (img : Image) (pe : Int) (soh n : Nat)
    (va vs : Nat → Nat) : Prop where
  lfanew : (rd32 img 0x3c).map toInt32 = some pe
  sizeOfOptionalHeader : rd16 img (pe + 0x14) = some soh
  numberOfSections : rd16 img (pe + 6) = some n
  virtualAddress : ∀ i, i < n → rd32 img (descPtr L pe soh i + L.offVirtualAddress) = some (va i)
  misc : ∀ i, i < n → rd32 img (descPtr L pe soh i + L.offMisc) = some (vs i)

/-- The range test as the code computes it: the upper bound is the 32-bit sum. -/
def InRange32 (va vs rva : Nat) : Prop := va ≤ rva ∧ rva < (vs + va) % 2 ^ 32

instance (va vs rva : Nat) : Decidable (InRange32 va vs rva) := by
  unfold InRange32; infer_instance

/-- The range test of the spec, `VirtualAddress <= rva < VirtualAddress +
VirtualSize`, over the unbounded integers. -/
def InRange (va vs rva : Nat) : Prop := va ≤ rva ∧ rva < va + vs

instance (va vs rva : Nat) : Decidable (InRange va vs rva) := by
  unfold InRange; infer_instance

/-- The loop of `_FindPESection` (see `scanLoop`) together with the descriptor
pointers at which the range test was evaluated, in the order of evaluation. -/
def scanRun (L : SectionLayout) (img : Image) (iVar1 : Int) (rva : Nat) :
    Nat → Int → Nat → Option (Option Int) × List Int
  | 0, _, _ => (none, [])
  | fuel + 1, p_Var2, uVar3 =>
    match rangeTest L img p_Var2 rva with
    | none => (none, [p_Var2])
    | some true => (some (some p_Var2), [p_Var2])
    | some false =>
      match rd16 img (iVar1 + 6) with
      | none => (none, [p_Var2])
      | some count =>
        if (uVar3 + 1) % 2 ^ 32 < count then
          ((scanRun L img iVar1 rva fuel (p_Var2 + L.size) ((uVar3 + 1) % 2 ^ 32)).1,
            p_Var2 :: (scanRun L img iVar1 rva fuel (p_Var2 + L.size) ((uVar3 + 1) % 2 ^ 32)).2)
        else (some none, [p_Var2])

/-- The routine `_FindPESection` together with the descriptor pointers it
examined, in order. -/
def findRun (L : SectionLayout) (img : Image) (rva : Nat) : Option (Option Int) × List Int :=
  match rd32 img 0x3c with
  | none => (none, [])
  | some e =>
    match rd16 img (toInt32 e + 0x14) with
    | none => (none, [])
    | some sizeOfOptionalHeader =>
      match rd16 img (toInt32 e + 6) with
      | none => (none, [])
      | some count =>
        if count ≠ 0 then
          scanRun L img (toInt32 e) rva (2 ^ 16) ((sizeOfOptionalHeader : Int) + 0x18 + toInt32 e) 0
        else (some none, [])

/-- The outcome of the loop at the descriptor `p` on which it stops: no result
when the test reads outside the image, `p` when the test succeeds, `NULL` when
it fails and `p` is the last descriptor. -/
def stopResult (L : SectionLayout) (img : Image) (rva : Nat) (p : Int) : Option (Option Int) :=
  match rangeTest L img p rva with
  | none => none
  | some true => some (some p)
  | some false => some none

/-! ## The routines as state transformers -/

/-- The state a call can touch: the bytes mapped at the image base.  The
source declares no static variable, so there is no other state. -/
structure Machine where
  mem : Image
  deriving DecidableEq

/-- A computation on the machine: `none` when a read or write lies outside
the image, else a value and the state after it. -/
abbrev Exec (α : Type) : Type := StateT Machine Option α

/-- A 16-bit load, `*(ushort *)(pImageBase + o)`; the state is not changed. -/
def load16 (o : Int) : Exec Nat := fun s => (rd16 s.mem o).map (fun v => (v, s))

/-- A 32-bit load, `*(uint *)(pImageBase + o)`; the state is not changed. -/
def load32 (o : Int) : Exec Nat := fun s => (rd32 s.mem o).map (fun v => (v, s))

/-- A one-byte store, `*(pImageBase + o) = b`: the only way to change the
state.  No routine of the source contains a store. -/
def store8 (o : Int) (b : Nat) : Exec Unit := fun s =>
  if o < 0 ∨ (s.mem.length : Int) ≤ o then none
  else some ((), Machine.mk (s.mem.set o.toNat (b % 256)))

/-- The statements of `_ValidateImageBase`, executed on the machine. -/
def execValidateImageBase : Exec Nat := do
  let dosMagic ← load16 0
  if toInt16 dosMagic = 0x5a4d then
    let lfanew ← load32 0x3c
    let sig ← load32 (toInt32 lfanew)
    if toInt32 sig = 0x4550 then
      let lfanew2 ← load32 0x3c
      let optMagic ← load16 (toInt32 lfanew2 + 0x18)
      if toInt16 optMagic = 0x20b then pure 1 else pure 0
    else pure 0
  else pure 0

/-- The range test of the scan loop, executed on the machine. -/
def execRangeTest (L : SectionLayout) (p_Var2 : Int) (rva : Nat) : Exec Bool := do
  let va ← load32 (p_Var2 + L.offVirtualAddress)
  if va ≤ rva then
    let misc ← load32 (p_Var2 + L.offMisc)
    pure (decide (rva < (misc + va) % 2 ^ 32))
  else pure false

/-- The scan loop of `_FindPESection`, executed on the machine. -/
def execScanLoop (L : SectionLayout) (iVar1 : Int) (rva : Nat) :
    Nat → Int → Nat → Exec (Option Int)
  | 0, _, _ => fun _ => none
  | fuel + 1, p_Var2, uVar3 => do
    let hit ← execRangeTest L p_Var2 rva
    if hit then pure (some p_Var2)
    else
      let uVar3 := (uVar3 + 1) % 2 ^ 32
      let count ← load16 (iVar1 + 6)
      if uVar3 < count then execScanLoop L iVar1 rva fuel (p_Var2 + L.size) uVar3
      else pure none

/-- The statements of `_FindPESection`, executed on the machine. -/
def execFindPESection (L : SectionLayout) (rva : Nat) : Exec (Option Int) := do
  let iVar1 := toInt32 (← load32 0x3c)
  let sizeOfOptionalHeader ← load16 (iVar1 + 0x14)
  let p_Var2 : Int := (sizeOfOptionalHeader : Int) + 0x18 + iVar1
  let count ← load16 (iVar1 + 6)
  if count ≠ 0 then execScanLoop L iVar1 rva (2 ^ 16) p_Var2 0
  else pure none

/-- The statements of `_IsNonwritableInCurrentImage`, executed on the machine. -/
def execIsNonwritableInCurrentImage (L : SectionLayout) (pTarget : Nat) : Exec Nat := do
  let uVar1 ← execValidateImageBase
  if uVar1 ≠ 0 then
    match ← execFindPESection L (rvaOf pTarget) with
    | some p_Var2 =>
      let characteristics ← load32 (p_Var2 + L.offCharacteristics)
      pure ((2 ^ 32 - 1 - characteristics / 2 ^ 31) % 2)
    | none => pure 0
  else pure uVar1

/-- Two calls of the oracle with the same address, one after the other. -/
def execTwice (L : SectionLayout) (pTarget : Nat) : Exec (Nat × Nat) := do
  let r1 ← execIsNonwritableInCurrentImage L pTarget
  let r2 ← execIsNonwritableInCurrentImage L pTarget
  pure (r1, r2)

/-- A store of 0 at offset 0 followed by a call of the oracle. -/
def execStoreThenCall (L : SectionLayout) (pTarget : Nat) : Exec Nat := do
  store8 0 0
  execIsNonwritableInCurrentImage L pTarget

/-- Modelled from the spec: the declaration of `IMAGE_SECTION_HEADER` is
missing from the sources.  The spec describes the descriptor as a 40-byte
record with `VirtualAddress` at a known sub-offset, `VirtualSize` (the `Misc`
union) immediately after it, and `Characteristics` a 32-bit field of the
record. -/
def SpecLayout (L : SectionLayout) : Prop :=
  L.size = 40 ∧ L.offMisc = L.offVirtualAddress + 4 ∧ L.offVirtualAddress + 8 ≤ 40 ∧
    L.offCharacteristics + 4 ≤ 40

/-- A layout as the spec describes it, for the examples: `VirtualAddress` at
12, `VirtualSize` at 16, `Characteristics` at 36. -/
def specLayout : SectionLayout :=
  SectionLayout.mk 40 16 12 36

theorem rd8_lt {img : Image} {o : Int} {b : Nat} (h : rd8 img o = some b) : b < 256 := by
  unfold rd8 at h
  split at h
  · cases h
  · simp only [Option.map_eq_some'] at h
    obtain ⟨a, _, rfl⟩ := h
    exact Nat.mod_lt _ (by norm_num)

theorem rd16_eq {img : Image} {o : Int} {v : Nat} :
    rd16 img o = some v ↔ ∃ b0 b1, rd8 img o = some b0 ∧ rd8 img (o + 1) = some b1 ∧
      v = b0 + 256 * b1 := by
  unfold rd16
  rcases h0 : rd8 img o with _ | b0
  · simp
  · rcases h1 : rd8 img (o + 1) with _ | b1
    · simp
    · simp; exact eq_comm

theorem rd32_eq {img : Image} {o : Int} {v : Nat} :
    rd32 img o = some v ↔ ∃ b0 b1 b2 b3, rd8 img o = some b0 ∧ rd8 img (o + 1) = some b1 ∧
      rd8 img (o + 2) = some b2 ∧ rd8 img (o + 3) = some b3 ∧
      v = b0 + 256 * b1 + 65536 * b2 + 16777216 * b3 := by
  unfold rd32
  rcases h0 : rd8 img o with _ | b0
  · simp
  · rcases h1 : rd8 img (o + 1) with _ | b1
    · simp
    · rcases h2 : rd8 img (o + 2) with _ | b2
      · simp
      · rcases h3 : rd8 img (o + 3) with _ | b3
        · simp
        · simp; exact eq_comm

theorem rd16_lt {img : Image} {o : Int} {v : Nat} (h : rd16 img o = some v) : v < 2 ^ 16 := by
  obtain ⟨b0, b1, h0, h1, rfl⟩ := rd16_eq.mp h
  have := rd8_lt h0
  have := rd8_lt h1
  omega

theorem rd32_lt {img : Image} {o : Int} {v : Nat} (h : rd32 img o = some v) : v < 2 ^ 32 := by
  obtain ⟨b0, b1, b2, b3, h0, h1, h2, h3, rfl⟩ := rd32_eq.mp h
  have := rd8_lt h0
  have := rd8_lt h1
  have := rd8_lt h2
  have := rd8_lt h3
  omega

theorem toInt16_eq_iff {x : Nat} (c : Nat) (hx : x < 2 ^ 16) (hc : c < 2 ^ 15) :
    toInt16 x = (c : Int) ↔ x = c := by
  unfold toInt16
  split <;> omega

theorem toInt32_eq_iff {x : Nat} (c : Nat) (hx : x < 2 ^ 32) (hc : c < 2 ^ 31) :
    toInt32 x = (c : Int) ↔ x = c := by
  unfold toInt32
  split <;> omega

/-! ## `_ValidateImageBase`: the three tests -/

theorem dosMagic_test {d : Nat} (h : d < 2 ^ 16) : toInt16 d = 0x5a4d ↔ d = 0x5A4D :=
  toInt16_eq_iff 0x5A4D h (by norm_num)

theorem signature_test {s : Nat} (h : s < 2 ^ 32) : toInt32 s = 0x4550 ↔ s = 0x4550 :=
  toInt32_eq_iff 0x4550 h (by norm_num)

theorem optMagic_test {m : Nat} (h : m < 2 ^ 16) : toInt16 m = 0x20b ↔ m = 0x20B :=
  toInt16_eq_iff 0x20B h (by norm_num)

/-- The result of `_ValidateImageBase` when the DOS magic is readable and wrong. -/
theorem validate_bad_dos {img : Image} {d : Nat} (h0 : rd16 img 0 = some d) (hd : d ≠ 0x5A4D) :
    _ValidateImageBase img = some 0 := by
  have hne : ¬ toInt16 d = 0x5a4d := fun h => hd ((dosMagic_test (rd16_lt h0)).mp h)
  simp [_ValidateImageBase, h0, hne]

/-- The result of `_ValidateImageBase` when the DOS magic is right and the
signature at the PE offset is readable and wrong. -/
theorem validate_bad_sig {img : Image} {e s : Nat} (h0 : rd16 img 0 = some 0x5A4D)
    (he : rd32 img 0x3c = some e) (hs : rd32 img (toInt32 e) = some s) (hne : s ≠ 0x4550) :
    _ValidateImageBase img = some 0 := by
  have hd : toInt16 0x5A4D = 0x5a4d := (dosMagic_test (by norm_num)).mpr rfl
  have hns : ¬ toInt32 s = 0x4550 := fun h => hne ((signature_test (rd32_lt hs)).mp h)
  simp [_ValidateImageBase, h0, he, hs, hd, hns]

/-- The result of `_ValidateImageBase` when the DOS magic and the signature are
right and the optional-header magic is readable. -/
theorem validate_magic {img : Image} {e m : Nat} (h0 : rd16 img 0 = some 0x5A4D)
    (he : rd32 img 0x3c = some e) (hs : rd32 img (toInt32 e) = some 0x4550)
    (hm : rd16 img (toInt32 e + 0x18) = some m) :
    _ValidateImageBase img = some (if m = 0x20B then 1 else 0) := by
  have hd : toInt16 0x5A4D = 0x5a4d := (dosMagic_test (by norm_num)).mpr rfl
  have hsg : toInt32 0x4550 = 0x4550 := (signature_test (by norm_num)).mpr rfl
  by_cases hmm : m = 0x20B
  · have : toInt16 m = 0x20b := (optMagic_test (rd16_lt hm)).mpr hmm
    simp [_ValidateImageBase, h0, he, hs, hm, hd, hsg, this]
    rw [if_pos hmm]
  · have : ¬ toInt16 m = 0x20b := fun h => hmm ((optMagic_test (rd16_lt hm)).mp h)
    simp [_ValidateImageBase, h0, he, hs, hm, hd, hsg, this, hmm]

/-- The result of `_ValidateImageBase` is `0` or `1`. -/
theorem validate_range {img : Image} {v : Nat} (h : _ValidateImageBase img = some v) :
    v = 0 ∨ v = 1 := by
  rcases h0 : rd16 img 0 with _ | d
  · simp [_ValidateImageBase, h0] at h
  by_cases hd : d = 0x5A4D
  swap
  · rw [validate_bad_dos h0 hd] at h; left; cases h; rfl
  subst hd
  have hdd : toInt16 0x5A4D = 0x5a4d := (dosMagic_test (by norm_num)).mpr rfl
  rcases he : rd32 img 0x3c with _ | e
  · simp [_ValidateImageBase, h0, he, hdd] at h
  rcases hs : rd32 img (toInt32 e) with _ | s
  · simp [_ValidateImageBase, h0, he, hs, hdd] at h
  by_cases hsv : s = 0x4550
  swap
  · rw [validate_bad_sig h0 he hs hsv] at h; left; cases h; rfl
  subst hsv
  have hsg : toInt32 0x4550 = 0x4550 := (signature_test (by norm_num)).mpr rfl
  rcases hm : rd16 img (toInt32 e + 0x18) with _ | m
  · simp [_ValidateImageBase, h0, he, hs, hm, hdd, hsg] at h
  rw [validate_magic h0 he hs hm] at h
  by_cases hmm : m = 0x20B
  · right; simp [hmm] at h; exact h.symm
  · left; simp [hmm] at h; exact h.symm

theorem rangeTest_eq {L : SectionLayout} {img : Image} {p : Int} {va vs : Nat} (rva : Nat)
    (hva : rd32 img (p + L.offVirtualAddress) = some va)
    (hvs : rd32 img (p + L.offMisc) = some vs) :
    rangeTest L img p rva = some (decide (InRange32 va vs rva)) := by
  unfold rangeTest InRange32
  by_cases h : va ≤ rva <;> simp [hva, hvs, h]

/-- The test succeeds only on a readable descriptor whose 32-bit range holds `rva`. -/
theorem rangeTest_true {L : SectionLayout} {img : Image} {p : Int} {rva : Nat}
    (h : rangeTest L img p rva = some true) :
    ∃ va vs, rd32 img (p + L.offVirtualAddress) = some va ∧
      rd32 img (p + L.offMisc) = some vs ∧ InRange32 va vs rva := by
  unfold rangeTest at h
  rcases hva : rd32 img (p + L.offVirtualAddress) with _ | va
  · simp [hva] at h
  by_cases hle : va ≤ rva
  · rcases hvs : rd32 img (p + L.offMisc) with _ | vs
    · simp [hva, hle, hvs] at h
    · simp [hva, hle, hvs] at h
      exact ⟨va, vs, rfl, rfl, hle, h⟩
  · simp [hva, hle] at h

/-- One iteration of the loop. -/
theorem scanLoop_succ (L : SectionLayout) (img : Image) (iVar1 : Int) (rva fuel : Nat)
    (p : Int) (k : Nat) :
    scanLoop L img iVar1 rva (fuel + 1) p k =
      (rangeTest L img p rva).bind (fun hit =>
        if hit = true then some (some p)
        else (rd16 img (iVar1 + 6)).bind (fun count =>
          if (k + 1) % 2 ^ 32 < count then
            scanLoop L img iVar1 rva fuel (p + L.size) ((k + 1) % 2 ^ 32)
          else some none)) := by
  rw [scanLoop]
  rfl

/-- Whatever the loop returns passed the range test. -/
theorem scanLoop_sound {L : SectionLayout} {img : Image} {iVar1 : Int} {rva : Nat} {q : Int} :
    ∀ (fuel : Nat) (p : Int) (k : Nat),
      scanLoop L img iVar1 rva fuel p k = some (some q) → rangeTest L img q rva = some true := by
  intro fuel
  induction fuel with
  | zero => intro p k h; simp [scanLoop] at h
  | succ fuel ih =>
    intro p k h
    rw [scanLoop_succ] at h
    rcases ht : rangeTest L img p rva with _ | hit
    · simp [ht] at h
    cases hit
    · rcases hc : rd16 img (iVar1 + 6) with _ | count
      · simp [ht, hc] at h
      · simp only [ht, hc, Option.some_bind, Bool.false_eq_true, if_false] at h
        by_cases hlt : (k + 1) % 2 ^ 32 < count
        · rw [if_pos hlt] at h
          exact ih _ _ h
        · rw [if_neg hlt] at h
          cases h
    · simp [ht] at h
      rw [← h]; exact ht

/-- Whatever `_FindPESection` returns passed the range test. -/
theorem find_sound {L : SectionLayout} {img : Image} {rva : Nat} {q : Int}
    (h : _FindPESection L img rva = some (some q)) : rangeTest L img q rva = some true := by
  unfold _FindPESection at h
  rcases he : rd32 img 0x3c with _ | e
  · simp [he] at h
  rcases hs : rd16 img (toInt32 e + 0x14) with _ | soh
  · simp [he, hs] at h
  rcases hc : rd16 img (toInt32 e + 6) with _ | count
  · simp [he, hs, hc] at h
  by_cases h0 : count = 0
  · simp [he, hs, hc, h0] at h
  · simp [he, hs, hc, h0] at h
    exact scanLoop_sound _ _ _ h

theorem descPtr_succ (L : SectionLayout) (pe : Int) (soh i : Nat) :
    descPtr L pe soh (i + 1) = descPtr L pe soh i + L.size := by
  unfold descPtr; push_cast; ring

theorem descPtr_zero (L : SectionLayout) (pe : Int) (soh : Nat) :
    descPtr L pe soh 0 = (soh : Int) + 0x18 + pe := by
  unfold descPtr; simp

/-- With the headers readable, `_FindPESection` is the loop entered at
descriptor 0, or `NULL` at once for an empty table. -/
theorem find_eq_scan {L : SectionLayout} {img : Image} {pe : Int} {soh n : Nat} (rva : Nat)
    (hpe : (rd32 img 0x3c).map toInt32 = some pe) (hsoh : rd16 img (pe + 0x14) = some soh)
    (hn : rd16 img (pe + 6) = some n) :
    _FindPESection L img rva =
      if n ≠ 0 then scanLoop L img pe rva (2 ^ 16) (descPtr L pe soh 0) 0 else some none := by
  rcases he : rd32 img 0x3c with _ | e
  · simp [he] at hpe
  simp only [he, Option.map_some', Option.some.injEq] at hpe
  subst hpe
  unfold _FindPESection
  rw [descPtr_zero]
  simp [he, hsoh, hn]

/-- The loop on a readable table, one step: descriptor `k` is tested, then the
loop moves to descriptor `k + 1` or ends. -/
theorem scanLoop_step {L : SectionLayout} {img : Image} {pe : Int} {soh n : Nat}
    {va vs : Nat → Nat} (T : SectionTable L img pe soh n va vs) (rva fuel k : Nat)
    (hk : k < n) :
    scanLoop L img pe rva (fuel + 1) (descPtr L pe soh k) k =
      if InRange32 (va k) (vs k) rva then some (some (descPtr L pe soh k))
      else if k + 1 < n then scanLoop L img pe rva fuel (descPtr L pe soh (k + 1)) (k + 1)
      else some none := by
  have hn := rd16_lt T.numberOfSections
  have hmod : (k + 1) % 2 ^ 32 = k + 1 := Nat.mod_eq_of_lt (by omega)
  rw [scanLoop_succ, rangeTest_eq rva (T.virtualAddress k hk) (T.misc k hk),
    T.numberOfSections, hmod, descPtr_succ]
  by_cases h : InRange32 (va k) (vs k) rva <;> simp [h]

/-- The loop reaches the first descriptor at or after `k` that passes the test. -/
theorem scanLoop_found {L : SectionLayout} {img : Image} {pe : Int} {soh n : Nat}
    {va vs : Nat → Nat} (T : SectionTable L img pe soh n va vs) (rva i : Nat) (hi : i < n)
    (hit : InRange32 (va i) (vs i) rva) :
    ∀ (d k fuel : Nat), k + d = i → d < fuel →
      (∀ j, k ≤ j → j < i → ¬ InRange32 (va j) (vs j) rva) →
      scanLoop L img pe rva fuel (descPtr L pe soh k) k = some (some (descPtr L pe soh i)) := by
  intro d
  induction d with
  | zero =>
    intro k fuel hk hf _
    obtain ⟨f, rfl⟩ : ∃ f, fuel = f + 1 := ⟨fuel - 1, by omega⟩
    have : k = i := by omega
    subst this
    rw [scanLoop_step T rva f k hi, if_pos hit]
  | succ d ih =>
    intro k fuel hk hf hno
    obtain ⟨f, rfl⟩ : ∃ f, fuel = f + 1 := ⟨fuel - 1, by omega⟩
    rw [scanLoop_step T rva f k (by omega), if_neg (hno k le_rfl (by omega)),
      if_pos (by omega)]
    exact ih (k + 1) f (by omega) (by omega) (fun j hj hji => hno j (by omega) hji)

/-- The loop ends with `NULL` when no descriptor from `k` on passes the test. -/
theorem scanLoop_none {L : SectionLayout} {img : Image} {pe : Int} {soh n : Nat}
    {va vs : Nat → Nat} (T : SectionTable L img pe soh n va vs) (rva : Nat) :
    ∀ (d k fuel : Nat), k + d + 1 = n → d < fuel →
      (∀ j, k ≤ j → j < n → ¬ InRange32 (va j) (vs j) rva) →
      scanLoop L img pe rva fuel (descPtr L pe soh k) k = some none := by
  intro d
  induction d with
  | zero =>
    intro k fuel hk hf hno
    obtain ⟨f, rfl⟩ : ∃ f, fuel = f + 1 := ⟨fuel - 1, by omega⟩
    rw [scanLoop_step T rva f k (by omega), if_neg (hno k le_rfl (by omega)),
      if_neg (by omega)]
  | succ d ih =>
    intro k fuel hk hf hno
    obtain ⟨f, rfl⟩ : ∃ f, fuel = f + 1 := ⟨fuel - 1, by omega⟩
    rw [scanLoop_step T rva f k (by omega), if_neg (hno k le_rfl (by omega)),
      if_pos (by omega)]
    exact ih (k + 1) f (by omega) (by omega) (fun j hj hjn => hno j (by omega) hjn)

/-- On a readable table `_FindPESection` returns the first descriptor whose
32-bit range holds `rva`. -/
theorem find_first {L : SectionLayout} {img : Image} {pe : Int} {soh n : Nat}
    {va vs : Nat → Nat} (T : SectionTable L img pe soh n va vs) (rva i : Nat) (hi : i < n)
    (hit : InRange32 (va i) (vs i) rva)
    (hno : ∀ j, j < i → ¬ InRange32 (va j) (vs j) rva) :
    _FindPESection L img rva = some (some (descPtr L pe soh i)) := by
  have hn := rd16_lt T.numberOfSections
  rw [find_eq_scan rva T.lfanew T.sizeOfOptionalHeader T.numberOfSections, if_pos (by omega)]
  exact scanLoop_found T rva i hi hit i 0 _ (by omega) (by omega) (fun j _ hj => hno j hj)

/-- On a readable table `_FindPESection` returns `NULL` when no descriptor's
32-bit range holds `rva`. -/
theorem find_none {L : SectionLayout} {img : Image} {pe : Int} {soh n : Nat}
    {va vs : Nat → Nat} (T : SectionTable L img pe soh n va vs) (rva : Nat)
    (hno : ∀ j, j < n → ¬ InRange32 (va j) (vs j) rva) :
    _FindPESection L img rva = some none := by
  have hn := rd16_lt T.numberOfSections
  rw [find_eq_scan rva T.lfanew T.sizeOfOptionalHeader T.numberOfSections]
  by_cases h0 : n = 0
  · simp [h0]
  · rw [if_pos h0]
    exact scanLoop_none T rva (n - 1) 0 _ (by omega) (by omega) (fun j _ hj => hno j hj)

/-- On a readable table `_FindPESection` returns a result: a descriptor or `NULL`. -/
theorem find_total {L : SectionLayout} {img : Image} {pe : Int} {soh n : Nat}
    {va vs : Nat → Nat} (T : SectionTable L img pe soh n va vs) (rva : Nat) :
    (∃ i, i < n ∧ InRange32 (va i) (vs i) rva ∧
        (∀ j, j < i → ¬ InRange32 (va j) (vs j) rva) ∧
        _FindPESection L img rva = some (some (descPtr L pe soh i))) ∨
      ((∀ j, j < n → ¬ InRange32 (va j) (vs j) rva) ∧ _FindPESection L img rva = some none) := by
  by_cases hex : ∃ i, i < n ∧ InRange32 (va i) (vs i) rva
  · left
    refine ⟨Nat.find hex, (Nat.find_spec hex).1, (Nat.find_spec hex).2, ?_, ?_⟩
    · intro j hj hin
      exact Nat.find_min hex hj ⟨lt_trans hj (Nat.find_spec hex).1, hin⟩
    · apply find_first T rva _ (Nat.find_spec hex).1 (Nat.find_spec hex).2
      intro j hj hin
      exact Nat.find_min hex hj ⟨lt_trans hj (Nat.find_spec hex).1, hin⟩
  · right
    have hno : ∀ j, j < n → ¬ InRange32 (va j) (vs j) rva := fun j hj hin => hex ⟨j, hj, hin⟩
    exact ⟨hno, find_none T rva hno⟩

/-! ## `_IsNonwritableInCurrentImage`: the verdict -/

/-- The value `~(Characteristics >> 0x1f) & 1` is 1 exactly when bit 31 is clear. -/
theorem verdict_eq {c : Nat} (hc : c < 2 ^ 32) :
    (2 ^ 32 - 1 - c / 2 ^ 31) % 2 = if c.testBit 31 then 0 else 1 := by
  rw [Nat.testBit_to_div_mod]
  have h : c / 2 ^ 31 = 0 ∨ c / 2 ^ 31 = 1 := by omega
  rcases h with h | h <;> rw [h] <;> rfl

/-- The oracle when the validator rejects the image. -/
theorem isNonwritable_invalid {L : SectionLayout} {img : Image} (pTarget : Nat)
    (hv : _ValidateImageBase img = some 0) :
    _IsNonwritableInCurrentImage L img pTarget = some 0 := by
  simp [_IsNonwritableInCurrentImage, hv]

/-- The oracle when the validator accepts the image and no section is found. -/
theorem isNonwritable_not_found {L : SectionLayout} {img : Image} {pTarget : Nat}
    (hv : _ValidateImageBase img = some 1)
    (hf : _FindPESection L img (rvaOf pTarget) = some none) :
    _IsNonwritableInCurrentImage L img pTarget = some 0 := by
  simp [_IsNonwritableInCurrentImage, hv, hf]

/-- The oracle when the validator accepts the image and a section is found. -/
theorem isNonwritable_found {L : SectionLayout} {img : Image} {pTarget : Nat} {p : Int}
    {c : Nat} (hv : _ValidateImageBase img = some 1)
    (hf : _FindPESection L img (rvaOf pTarget) = some (some p))
    (hc : rd32 img (p + L.offCharacteristics) = some c) :
    _IsNonwritableInCurrentImage L img pTarget = some (if c.testBit 31 then 0 else 1) := by
  rw [← verdict_eq (rd32_lt hc)]
  simp [_IsNonwritableInCurrentImage, hv, hf, hc]

/-- The oracle returns 1 exactly when the image is accepted, a section is
found and its write bit is clear. -/
theorem isNonwritable_one_iff (L : SectionLayout) (img : Image) (pTarget : Nat) :
    _IsNonwritableInCurrentImage L img pTarget = some 1 ↔
      _ValidateImageBase img = some 1 ∧
        ∃ p c, _FindPESection L img (rvaOf pTarget) = some (some p) ∧
          rd32 img (p + L.offCharacteristics) = some c ∧ c.testBit 31 = false := by
  constructor
  · intro h
    rcases hv : _ValidateImageBase img with _ | v
    · simp [_IsNonwritableInCurrentImage, hv] at h
    rcases validate_range hv with rfl | rfl
    · rw [isNonwritable_invalid pTarget hv] at h; cases h
    refine ⟨rfl, ?_⟩
    rcases hf : _FindPESection L img (rvaOf pTarget) with _ | r
    · simp [_IsNonwritableInCurrentImage, hv, hf] at h
    rcases r with _ | p
    · rw [isNonwritable_not_found hv hf] at h; cases h
    rcases hc : rd32 img (p + L.offCharacteristics) with _ | c
    · simp [_IsNonwritableInCurrentImage, hv, hf, hc] at h
    rw [isNonwritable_found hv hf hc] at h
    refine ⟨p, c, rfl, hc, ?_⟩
    cases hb : c.testBit 31
    · rfl
    · simp [hb] at h
  · rintro ⟨hv, p, c, hf, hc, hb⟩
    rw [isNonwritable_found hv hf hc, hb]; rfl

/-- The loop never runs out of iterations: from counter `k < 2^16` any two
bounds of at least `2^16 - k` give the same result. -/
theorem scanLoop_fuel (L : SectionLayout) (img : Image) (iVar1 : Int) (rva : Nat) :
    ∀ (f1 f2 : Nat) (p : Int) (k : Nat), k < 2 ^ 16 → 2 ^ 16 ≤ f1 + k → 2 ^ 16 ≤ f2 + k →
      scanLoop L img iVar1 rva f1 p k = scanLoop L img iVar1 rva f2 p k := by
  intro f1
  induction f1 with
  | zero => intro f2 p k hk h1 _; omega
  | succ f1 ih =>
    intro f2 p k hk h1 h2
    obtain ⟨g, rfl⟩ : ∃ g, f2 = g + 1 := ⟨f2 - 1, by omega⟩
    rw [scanLoop_succ, scanLoop_succ]
    congr 1
    funext hit
    cases hit
    · simp only [Bool.false_eq_true, if_false]
      rcases hc : rd16 img (iVar1 + 6) with _ | count
      · rfl
      · simp only [Option.some_bind]
        have hcount := rd16_lt hc
        have hmod : (k + 1) % 2 ^ 32 = k + 1 := Nat.mod_eq_of_lt (by omega)
        rw [hmod]
        by_cases hlt : k + 1 < count
        · rw [if_pos hlt, if_pos hlt]
          exact ih g _ (k + 1) (by omega) (by omega) (by omega)
        · rw [if_neg hlt, if_neg hlt]
    · rfl

/-! ## Concrete images -/

/-- The section table of `scenario` as `_FindPESection` reads it. -/
theorem scenario_table :
    SectionTable stdLayout scenario 0x40 2 2 (fun i => if i = 0 then 0x1000 else 0x2000)
      (fun _ => 0x1000) :=
  ⟨by decide, by decide, by decide, by decide, by decide⟩

/-- The section table of `boundaryImage` as `_FindPESection` reads it. -/
theorem boundary_table :
    SectionTable stdLayout boundaryImage 0x40 2 4
      (fun i => if i = 0 then 0x1000 else if i = 1 then 0x2000 else
        if i = 2 then 0x4000 else 0xFFFFF000)
      (fun i => if i = 0 then 0x2000 else if i = 1 then 0x1000 else
        if i = 2 then 0 else 0x2000) :=
  ⟨by decide, by decide, by decide, by decide, by decide⟩

/-- The header of `scenario` as `_ValidateImageBase` reads it. -/
theorem scenario_header : Header scenario 0x5A4D 0x40 0x4550 0x20B :=
  ⟨by decide, by decide, by decide, by decide⟩

theorem inRange32_iff_inRange {va vs : Nat} (rva : Nat) (h : va + vs < 2 ^ 32) :
    InRange32 va vs rva ↔ InRange va vs rva := by
  unfold InRange32 InRange
  rw [Nat.mod_eq_of_lt (by omega), Nat.add_comm vs va]

theorem inRange_of_inRange32 {va vs rva : Nat} (h : InRange32 va vs rva) : InRange va vs rva := by
  unfold InRange32 at h
  unfold InRange
  have := Nat.mod_le (vs + va) (2 ^ 32)
  omega

theorem inRange32_lt {va vs rva : Nat} (h : InRange32 va vs rva) : rva < 2 ^ 32 := by
  unfold InRange32 at h
  have := Nat.mod_lt (vs + va) (show 0 < 2 ^ 32 by norm_num)
  omega

/-- With the header fields readable the result of `_ValidateImageBase` is
determined by the three values. -/
theorem validate_of_header {img : Image} {dos : Nat} {pe : Int} {sig magic : Nat}
    (H : Header img dos pe sig magic) :
    _ValidateImageBase img =
      some (if dos = 0x5A4D ∧ sig = 0x4550 ∧ magic = 0x20B then 1 else 0) := by
  obtain ⟨h0, hpe, hs, hm⟩ := H
  rcases he : rd32 img 0x3c with _ | e
  · simp [he] at hpe
  simp only [he, Option.map_some', Option.some.injEq] at hpe
  subst hpe
  by_cases hd : dos = 0x5A4D
  swap
  · rw [validate_bad_dos h0 hd, if_neg (fun h => hd h.1)]
  subst hd
  by_cases hsv : sig = 0x4550
  swap
  · rw [validate_bad_sig h0 he hs hsv, if_neg (fun h => hsv h.2.1)]
  subst hsv
  rw [validate_magic h0 he hs hm]
  by_cases hmm : magic = 0x20B
  · rw [if_pos hmm, if_pos ⟨rfl, rfl, hmm⟩]
  · rw [if_neg hmm, if_neg (fun h => hmm h.2.2)]

/-! ## The claims -/

/-- C1: `_IsNonwritableInCurrentImage` returns 1 exactly when
`_ValidateImageBase` accepts the image, `_FindPESection` finds a section for
`rva = target - imageBase` (64-bit wrapping) and bit 31 of that section's
`Characteristics` is clear; with an invalid header, with no section found, and
with the write bit set it returns 0. -/
theorem isNonwritable_spec (L : SectionLayout) (img : Image) (pTarget : Nat) :
    (_IsNonwritableInCurrentImage L img pTarget = some 1 ↔
      _ValidateImageBase img = some 1 ∧
        ∃ p c, _FindPESection L img (rvaOf pTarget) = some (some p) ∧
          rd32 img (p + L.offCharacteristics) = some c ∧ c.testBit 31 = false) ∧
    (_ValidateImageBase img = some 0 → _IsNonwritableInCurrentImage L img pTarget = some 0) ∧
    (_ValidateImageBase img = some 1 → _FindPESection L img (rvaOf pTarget) = some none →
      _IsNonwritableInCurrentImage L img pTarget = some 0) ∧
    (∀ p c, _ValidateImageBase img = some 1 →
      _FindPESection L img (rvaOf pTarget) = some (some p) →
      rd32 img (p + L.offCharacteristics) = some c → c.testBit 31 = true →
      _IsNonwritableInCurrentImage L img pTarget = some 0) ∧
    ((rvaOf pTarget : Nat) : Int) = ((pTarget : Int) - (imageBase : Int)) % 2 ^ 64 := by
  refine ⟨isNonwritable_one_iff L img pTarget, fun hv => isNonwritable_invalid pTarget hv,
    fun hv hf => isNonwritable_not_found hv hf, ?_, ?_⟩
  · intro p c hv hf hc hb
    rw [isNonwritable_found hv hf hc, hb]; rfl
  · unfold rvaOf imageBase
    omega

/-- C1, the scenario of the spec: the probe at `imageBase + 0x1500` (in
`.text`) is non-writable, the probe at `imageBase + 0x2500` (in `.data`) is not. -/
theorem isNonwritable_spec_witness :
    _IsNonwritableInCurrentImage stdLayout scenario (imageBase + 0x1500) = some 1 ∧
      _IsNonwritableInCurrentImage stdLayout scenario (imageBase + 0x2500) = some 0 :=
  ⟨(isNonwritable_spec stdLayout scenario (imageBase + 0x1500)).1.mpr
      ⟨by decide, 90, 0x60000020, by decide, by decide, by decide⟩,
    (isNonwritable_spec stdLayout scenario (imageBase + 0x2500)).2.2.2.1 130 0xC0000040
      (by decide) (by decide) (by decide) (by decide)⟩

/-- C2 fails for the unbounded sum: the only descriptor of `wrapImage` has
`VirtualAddress <= rva < VirtualAddress + VirtualSize` at `rva = 0xFFFFF800`,
and `_FindPESection` returns `NULL`. -/
theorem find_unbounded_sum_counterexample :
    SectionTable stdLayout wrapImage 0x40 2 1 (fun _ => 0xFFFFF000) (fun _ => 0x2000) ∧
      InRange 0xFFFFF000 0x2000 0xFFFFF800 ∧
      _FindPESection stdLayout wrapImage 0xFFFFF800 = some none :=
  ⟨⟨by decide, by decide, by decide, by decide, by decide⟩, by decide, by decide⟩

/-- C2, amended: on every image `_FindPESection` returns the descriptor with
the smallest index `i < count` such that `VirtualAddress_i <= rva <
(VirtualAddress_i + VirtualSize_i) mod 2^32`, and `NULL` exactly when no
descriptor with index below `count` passes that test; the test is the one of
the spec for every descriptor with `VirtualAddress + VirtualSize < 2^32`. -/
theorem find_first_match {L : SectionLayout} {img : Image} {pe : Int} {soh n : Nat}
    {va vs : Nat → Nat} (T : SectionTable L img pe soh n va vs) (rva : Nat) :
    (∀ p, _FindPESection L img rva = some (some p) ↔
      ∃ i, i < n ∧ p = descPtr L pe soh i ∧ InRange32 (va i) (vs i) rva ∧
        ∀ j, j < i → ¬ InRange32 (va j) (vs j) rva) ∧
    (_FindPESection L img rva = some none ↔ ∀ i, i < n → ¬ InRange32 (va i) (vs i) rva) ∧
    (∀ i, va i + vs i < 2 ^ 32 → (InRange32 (va i) (vs i) rva ↔ InRange (va i) (vs i) rva)) := by
  refine ⟨fun p => ⟨?_, ?_⟩, ⟨?_, find_none T rva⟩, fun i h => inRange32_iff_inRange rva h⟩
  · intro h
    rcases find_total T rva with ⟨i, hi, hin, hmin, hf⟩ | ⟨_, hf⟩
    · rw [hf] at h
      simp only [Option.some.injEq] at h
      exact ⟨i, hi, h.symm, hin, hmin⟩
    · rw [hf] at h; cases h
  · rintro ⟨i, hi, rfl, hin, hmin⟩
    exact find_first T rva i hi hin hmin
  · intro h
    rcases find_total T rva with ⟨i, _, _, _, hf⟩ | ⟨hno, _⟩
    · rw [hf] at h; cases h
    · exact hno

/-- C2, amended, on the scenario: `0x2500` lies in descriptor 1 only, `0x3000`
in none. -/
theorem find_first_match_witness :
    _FindPESection stdLayout scenario 0x2500 = some (some (descPtr stdLayout 0x40 2 1)) ∧
      _FindPESection stdLayout scenario 0x3000 = some none :=
  ⟨((find_first_match scenario_table 0x2500).1 _).mpr ⟨1, by decide, rfl, by decide, by decide⟩,
    (find_first_match scenario_table 0x3000).2.1.mpr (by decide)⟩

/-- C4: on a well-formed image (header and section table inside the image,
every section end `VirtualAddress + VirtualSize` below `2^32`) whose half-open
ranges do not overlap, `_FindPESection` returns the section whose range holds
`rva`, and `NULL` for an `rva` in no range (a gap, or past the last section). -/
theorem find_nonoverlapping {L : SectionLayout} {img : Image} {pe : Int} {soh n : Nat}
    {va vs : Nat → Nat} (T : SectionTable L img pe soh n va vs)
    (hfit : ∀ i, i < n → va i + vs i < 2 ^ 32)
    (hdisj : ∀ i j, i < n → j < n → i ≠ j →
      ∀ x, ¬ (InRange (va i) (vs i) x ∧ InRange (va j) (vs j) x))
    (rva : Nat) :
    (∀ i, i < n → InRange (va i) (vs i) rva →
      _FindPESection L img rva = some (some (descPtr L pe soh i))) ∧
    ((∀ i, i < n → ¬ InRange (va i) (vs i) rva) → _FindPESection L img rva = some none) := by
  constructor
  · intro i hi hin
    apply find_first T rva i hi ((inRange32_iff_inRange rva (hfit i hi)).mpr hin)
    intro j hj hjn
    have hj' : j < n := lt_trans hj hi
    exact hdisj i j hi hj' (by omega) rva
      ⟨hin, (inRange32_iff_inRange rva (hfit j hj')).mp hjn⟩
  · intro hno
    apply find_none T rva
    intro j hj hjn
    exact hno j hj ((inRange32_iff_inRange rva (hfit j hj)).mp hjn)

/-- C4 on the scenario: `0x2000` is found in `.data`, `0x0800` (before the
first section) and `0x3000` (past the last) are not found. -/
theorem find_nonoverlapping_witness :
    _FindPESection stdLayout scenario 0x2000 = some (some (descPtr stdLayout 0x40 2 1)) ∧
      _FindPESection stdLayout scenario 0x0800 = some none ∧
      _FindPESection stdLayout scenario 0x3000 = some none := by
  have hfit : ∀ i, i < 2 →
      (fun i => if i = 0 then 0x1000 else 0x2000) i + (fun _ => 0x1000) i < 2 ^ 32 := by
    decide
  have hdisj : ∀ i j, i < 2 → j < 2 → i ≠ j → ∀ x,
      ¬ (InRange ((fun i => if i = 0 then 0x1000 else 0x2000) i) ((fun _ => 0x1000) i) x ∧
        InRange ((fun i => if i = 0 then 0x1000 else 0x2000) j) ((fun _ => 0x1000) j) x) := by
    intro i j hi hj hne x
    unfold InRange
    interval_cases i <;> interval_cases j <;> simp at hne ⊢ <;> omega
  exact ⟨(find_nonoverlapping scenario_table hfit hdisj 0x2000).1 1 (by decide) (by decide),
    (find_nonoverlapping scenario_table hfit hdisj 0x0800).2 (by decide),
    (find_nonoverlapping scenario_table hfit hdisj 0x3000).2 (by decide)⟩

/-- C5 fails on `boundaryImage`: at `rva = VirtualAddress` of descriptor 1 the
earlier descriptor 0 is returned, and at `rva = VirtualAddress` of the empty
descriptor 2 and of descriptor 3, whose 32-bit sum overflows, `NULL` is
returned. -/
theorem find_lower_bound_counterexample :
    SectionTable stdLayout boundaryImage 0x40 2 4
        (fun i => if i = 0 then 0x1000 else if i = 1 then 0x2000 else
          if i = 2 then 0x4000 else 0xFFFFF000)
        (fun i => if i = 0 then 0x2000 else if i = 1 then 0x1000 else
          if i = 2 then 0 else 0x2000) ∧
      _FindPESection stdLayout boundaryImage 0x2000 = some (some (descPtr stdLayout 0x40 2 0)) ∧
      descPtr stdLayout 0x40 2 0 ≠ descPtr stdLayout 0x40 2 1 ∧
      _FindPESection stdLayout boundaryImage 0x4000 = some none ∧
      _FindPESection stdLayout boundaryImage 0xFFFFF000 = some none :=
  ⟨boundary_table, by decide, by decide, by decide, by decide⟩

/-- C5, amended: for every descriptor `i` of the table whose range is not
empty as the code computes it, `VirtualAddress_i < (VirtualAddress_i +
VirtualSize_i) mod 2^32`, `_FindPESection` at `rva = VirtualAddress_i` returns
the first descriptor of the table whose range holds `rva`: its index `j` is at
most `i`, no descriptor before `j` holds `rva`, and `j = i` exactly when no
descriptor before `i` holds `VirtualAddress_i`. -/
theorem find_lower_bound {L : SectionLayout} {img : Image} {pe : Int} {soh n : Nat}
    {va vs : Nat → Nat} (T : SectionTable L img pe soh n va vs) (i : Nat) (hi : i < n)
    (hne : va i < (vs i + va i) % 2 ^ 32) :
    ∃ j, j ≤ i ∧ InRange32 (va j) (vs j) (va i) ∧
      (∀ k, k < j → ¬ InRange32 (va k) (vs k) (va i)) ∧
      _FindPESection L img (va i) = some (some (descPtr L pe soh j)) ∧
      (j = i ↔ ∀ k, k < i → ¬ InRange32 (va k) (vs k) (va i)) := by
  have hin : InRange32 (va i) (vs i) (va i) := ⟨le_rfl, hne⟩
  rcases find_total T (va i) with ⟨j, _, hj, hmin, hf⟩ | ⟨hno, _⟩
  · have hji : j ≤ i := by
      by_contra hlt
      exact hmin i (by omega) hin
    refine ⟨j, hji, hj, hmin, hf, ⟨?_, ?_⟩⟩
    · intro h; subst h; exact hmin
    · intro h
      by_contra hne'
      exact h j (by omega) hj
  · exact absurd hin (hno i hi)

/-- C5, amended, on `boundaryImage`: `0x2000`, the `VirtualAddress` of
descriptor 1, finds the first descriptor that holds it, which is descriptor 0
and not descriptor 1. -/
theorem find_lower_bound_witness :
    ∃ j, j ≤ 1 ∧ j ≠ 1 ∧
      _FindPESection stdLayout boundaryImage 0x2000 = some (some (descPtr stdLayout 0x40 2 j)) := by
  obtain ⟨j, hj, _, _, hf, hiff⟩ := find_lower_bound boundary_table 1 (by decide) (by decide)
  refine ⟨j, hj, ?_, hf⟩
  intro h
  exact (hiff.mp h) 0 (by decide) (by decide)

/-- C6: for every descriptor `i` of the table, `_FindPESection` at
`rva = VirtualAddress_i + VirtualSize_i`, the sum taken exactly or as the
32-bit sum, returns a result that is not descriptor `i`: another descriptor or
`NULL`. -/
theorem find_upper_bound {L : SectionLayout} {img : Image} {pe : Int} {soh n : Nat}
    {va vs : Nat → Nat} (T : SectionTable L img pe soh n va vs) (i : Nat) (hi : i < n) :
    (∃ r, _FindPESection L img (va i + vs i) = some r ∧ r ≠ some (descPtr L pe soh i)) ∧
      ∃ r, _FindPESection L img ((va i + vs i) % 2 ^ 32) = some r ∧
        r ≠ some (descPtr L pe soh i) := by
  have key : ∀ rva, (vs i + va i) % 2 ^ 32 ≤ rva →
      ∃ r, _FindPESection L img rva = some r ∧ r ≠ some (descPtr L pe soh i) := by
    intro rva hle
    have hret : ∃ r, _FindPESection L img rva = some r := by
      rcases find_total T rva with ⟨k, _, _, _, hf⟩ | ⟨_, hf⟩
      · exact ⟨_, hf⟩
      · exact ⟨_, hf⟩
    obtain ⟨r, hr⟩ := hret
    refine ⟨r, hr, ?_⟩
    rintro rfl
    obtain ⟨a, s, ha, hs, hin⟩ := rangeTest_true (find_sound hr)
    rw [T.virtualAddress i hi] at ha
    rw [T.misc i hi] at hs
    simp only [Option.some.injEq] at ha hs
    subst ha hs
    unfold InRange32 at hin
    omega
  constructor
  · apply key
    have := Nat.mod_le (vs i + va i) (2 ^ 32)
    omega
  · apply key
    rw [Nat.add_comm]

/-- C6 on the scenario: `0x2000`, the end of `.text`, is not found in `.text`
(it is found in `.data`). -/
theorem find_upper_bound_witness :
    ∃ r, _FindPESection stdLayout scenario 0x2000 = some r ∧
      r ≠ some (descPtr stdLayout 0x40 2 0) :=
  (find_upper_bound scenario_table 0 (by decide)).1

/-- C7: for every image and every target address below the image base
`0x140000000` the subtraction wraps to `target + 2^64 - imageBase`, at least
`2^32`; `_FindPESection` returns no descriptor for that `rva` and the oracle
does not return 1; on an image whose header and section table are readable
`_FindPESection` returns `NULL` and the oracle returns 0, whatever the table
contains. -/
theorem below_base_not_found (L : SectionLayout) (img : Image) (pTarget : Nat)
    (ht : pTarget < imageBase) :
    (rvaOf pTarget = pTarget + 2 ^ 64 - imageBase ∧ 2 ^ 32 ≤ rvaOf pTarget) ∧
    (∀ p, _FindPESection L img (rvaOf pTarget) ≠ some (some p)) ∧
    _IsNonwritableInCurrentImage L img pTarget ≠ some 1 ∧
    (∀ pe soh n va vs, SectionTable L img pe soh n va vs →
      _FindPESection L img (rvaOf pTarget) = some none ∧
      ∀ dos sig magic, Header img dos pe sig magic →
        _IsNonwritableInCurrentImage L img pTarget = some 0) := by
  have hrva : rvaOf pTarget = pTarget + 2 ^ 64 - imageBase ∧ 2 ^ 32 ≤ rvaOf pTarget := by
    unfold rvaOf imageBase at *
    omega
  have hnf : ∀ p, _FindPESection L img (rvaOf pTarget) ≠ some (some p) := by
    intro p h
    obtain ⟨a, s, _, _, hin⟩ := rangeTest_true (find_sound h)
    have := inRange32_lt hin
    omega
  refine ⟨hrva, hnf, ?_, ?_⟩
  · intro h
    obtain ⟨_, p, _, hf, _⟩ := (isNonwritable_one_iff L img pTarget).mp h
    exact hnf p hf
  · intro pe soh n va vs T
    have hf : _FindPESection L img (rvaOf pTarget) = some none := by
      apply find_none T
      intro j _ hin
      have := inRange32_lt hin
      omega
    refine ⟨hf, ?_⟩
    intro dos sig magic H
    have hv := validate_of_header H
    by_cases hc : dos = 0x5A4D ∧ sig = 0x4550 ∧ magic = 0x20B
    · rw [if_pos hc] at hv
      exact isNonwritable_not_found hv hf
    · rw [if_neg hc] at hv
      exact isNonwritable_invalid pTarget hv

/-- C7 on the scenario: the address just before the image is not found and
is not vouched for. -/
theorem below_base_not_found_witness :
    rvaOf (imageBase - 1) = 2 ^ 64 - 1 ∧
      _FindPESection stdLayout scenario (rvaOf (imageBase - 1)) = some none ∧
      _IsNonwritableInCurrentImage stdLayout scenario (imageBase - 1) = some 0 :=
  ⟨(below_base_not_found stdLayout scenario (imageBase - 1) (by decide)).1.1,
    ((below_base_not_found stdLayout scenario (imageBase - 1) (by decide)).2.2.2
      _ _ _ _ _ scenario_table).1,
    ((below_base_not_found stdLayout scenario (imageBase - 1) (by decide)).2.2.2
      _ _ _ _ _ scenario_table).2 _ _ _ scenario_header⟩

/-- C8: whenever `_FindPESection` returns a descriptor, its 32-bit fields
`VirtualAddress` and `VirtualSize`, zero-extended, satisfy `VirtualAddress <=
rva < (VirtualAddress + VirtualSize) mod 2^32`, hence `VirtualAddress <= rva <
VirtualAddress + VirtualSize` over the unbounded integers, also when the
32-bit sum overflows. -/
theorem find_no_false_positive (L : SectionLayout) (img : Image) (rva : Nat) (p : Int)
    (h : _FindPESection L img rva = some (some p)) :
    ∃ va vs, rd32 img (p + L.offVirtualAddress) = some va ∧
      rd32 img (p + L.offMisc) = some vs ∧ va < 2 ^ 32 ∧ vs < 2 ^ 32 ∧
      InRange32 va vs rva ∧ InRange va vs rva := by
  obtain ⟨va, vs, hva, hvs, hin⟩ := rangeTest_true (find_sound h)
  exact ⟨va, vs, hva, hvs, rd32_lt hva, rd32_lt hvs, hin, inRange_of_inRange32 hin⟩

/-- C8 on `highImage`, whose section starts at `0x80000000`: the descriptor
returned for `rva = 0x80000500` holds it in its unbounded range. -/
theorem find_no_false_positive_witness :
    _FindPESection stdLayout highImage 0x80000500 = some (some 90) ∧
      ∃ va vs, rd32 highImage (90 + stdLayout.offVirtualAddress) = some va ∧
        rd32 highImage (90 + stdLayout.offMisc) = some vs ∧ va < 2 ^ 32 ∧ vs < 2 ^ 32 ∧
        InRange32 va vs 0x80000500 ∧ InRange va vs 0x80000500 :=
  ⟨by decide, find_no_false_positive stdLayout highImage 0x80000500 90 (by decide)⟩

/-- C9: when the 16-bit section count at `peOffset + 0x06` is 0,
`_FindPESection` returns `NULL` for every `rva` as soon as the three header
fields it reads (at `0x3c`, `peOffset + 0x14`, `peOffset + 0x06`) are inside
the image: nothing is assumed of the bytes at the table offset, which need not
exist. -/
theorem find_empty_table (L : SectionLayout) (img : Image) (rva e soh : Nat)
    (he : rd32 img 0x3c = some e) (hsoh : rd16 img (toInt32 e + 0x14) = some soh)
    (hn : rd16 img (toInt32 e + 6) = some 0) :
    _FindPESection L img rva = some none := by
  rw [find_eq_scan rva (by rw [he]; rfl) hsoh hn]
  rfl

/-- C9 on `emptyTableImage`, which ends at the table offset `0x5A`: no byte
of a section table exists and the result is `NULL`. -/
theorem find_empty_table_witness :
    emptyTableImage.length = 0x5A ∧ rd8 emptyTableImage 0x5A = none ∧
      _FindPESection stdLayout emptyTableImage 0x1500 = some none :=
  ⟨by decide, by decide,
    find_empty_table stdLayout emptyTableImage 0x1500 0x40 2 (by decide) (by decide)
      (by decide)⟩

/-- C10: `_ValidateImageBase` returns 0 when the DOS magic is wrong, whatever
else the image holds (the field at `0x3c` need not exist); when the DOS magic
is right and the signature at the PE offset is wrong (the optional-header
magic need not exist); and when both are right and the optional-header magic is
`0x010B`. -/
theorem validate_short_circuit (img : Image) :
    (∀ d, rd16 img 0 = some d → d ≠ 0x5A4D → _ValidateImageBase img = some 0) ∧
    (∀ e s, rd16 img 0 = some 0x5A4D → rd32 img 0x3c = some e →
      rd32 img (toInt32 e) = some s → s ≠ 0x4550 → _ValidateImageBase img = some 0) ∧
    (∀ e, rd16 img 0 = some 0x5A4D → rd32 img 0x3c = some e →
      rd32 img (toInt32 e) = some 0x4550 → rd16 img (toInt32 e + 0x18) = some 0x10B →
      _ValidateImageBase img = some 0) := by
  refine ⟨fun d h0 hd => validate_bad_dos h0 hd,
    fun e s h0 he hs hne => validate_bad_sig h0 he hs hne, ?_⟩
  intro e h0 he hs hm
  rw [validate_magic h0 he hs hm]
  rfl

/-- C10 on three images: a two-byte image with a wrong DOS magic, an image
with a wrong signature that ends before the optional header, and a PE32
image. -/
theorem validate_short_circuit_witness :
    (rd32 badDosImage 0x3c = none ∧ _ValidateImageBase badDosImage = some 0) ∧
      (rd16 badSigImage (0x40 + 0x18) = none ∧ _ValidateImageBase badSigImage = some 0) ∧
      _ValidateImageBase pe32Image = some 0 :=
  ⟨⟨by decide, (validate_short_circuit badDosImage).1 0x4D (by decide) (by decide)⟩,
    ⟨by decide, (validate_short_circuit badSigImage).2.1 0x40 0x4551 (by decide) (by decide)
      (by decide) (by decide)⟩,
    (validate_short_circuit pe32Image).2.2 0x40 (by decide) (by decide) (by decide)
      (by decide)⟩

/-! ## Reads and the length of the image -/

theorem rd8_eq_none_iff (img : Image) (o : Int) :
    rd8 img o = none ↔ o < 0 ∨ (img.length : Int) ≤ o := by
  unfold rd8
  split
  · simp [*]
  · simp only [Option.map_eq_none', List.get?_eq_none]
    omega

theorem rd16_eq_none_iff (img : Image) (o : Int) :
    rd16 img o = none ↔ o < 0 ∨ (img.length : Int) < o + 2 := by
  constructor
  · intro h
    by_contra hc
    have h0 : rd8 img o ≠ none := by rw [Ne, rd8_eq_none_iff]; omega
    have h1 : rd8 img (o + 1) ≠ none := by rw [Ne, rd8_eq_none_iff]; omega
    obtain ⟨b0, e0⟩ := Option.ne_none_iff_exists'.mp h0
    obtain ⟨b1, e1⟩ := Option.ne_none_iff_exists'.mp h1
    have : rd16 img o = some (b0 + 256 * b1) := rd16_eq.mpr ⟨b0, b1, e0, e1, rfl⟩
    rw [h] at this
    cases this
  · intro h
    rcases hv : rd16 img o with _ | v
    · rfl
    · obtain ⟨b0, b1, e0, e1, _⟩ := rd16_eq.mp hv
      have h0 : ¬ (o < 0 ∨ (img.length : Int) ≤ o) := by
        rw [← rd8_eq_none_iff, e0]; simp
      have h1 : ¬ (o + 1 < 0 ∨ (img.length : Int) ≤ o + 1) := by
        rw [← rd8_eq_none_iff, e1]; simp
      omega

theorem rd32_eq_none_iff (img : Image) (o : Int) :
    rd32 img o = none ↔ o < 0 ∨ (img.length : Int) < o + 4 := by
  constructor
  · intro h
    by_contra hc
    have h0 : rd8 img o ≠ none := by rw [Ne, rd8_eq_none_iff]; omega
    have h1 : rd8 img (o + 1) ≠ none := by rw [Ne, rd8_eq_none_iff]; omega
    have h2 : rd8 img (o + 2) ≠ none := by rw [Ne, rd8_eq_none_iff]; omega
    have h3 : rd8 img (o + 3) ≠ none := by rw [Ne, rd8_eq_none_iff]; omega
    obtain ⟨b0, e0⟩ := Option.ne_none_iff_exists'.mp h0
    obtain ⟨b1, e1⟩ := Option.ne_none_iff_exists'.mp h1
    obtain ⟨b2, e2⟩ := Option.ne_none_iff_exists'.mp h2
    obtain ⟨b3, e3⟩ := Option.ne_none_iff_exists'.mp h3
    have : rd32 img o = some (b0 + 256 * b1 + 65536 * b2 + 16777216 * b3) :=
      rd32_eq.mpr ⟨b0, b1, b2, b3, e0, e1, e2, e3, rfl⟩
    rw [h] at this
    cases this
  · intro h
    rcases hv : rd32 img o with _ | v
    · rfl
    · obtain ⟨b0, b1, b2, b3, e0, e1, e2, e3, _⟩ := rd32_eq.mp hv
      have h0 : ¬ (o < 0 ∨ (img.length : Int) ≤ o) := by
        rw [← rd8_eq_none_iff, e0]; simp
      have h3 : ¬ (o + 3 < 0 ∨ (img.length : Int) ≤ o + 3) := by
        rw [← rd8_eq_none_iff, e3]; simp
      omega

theorem rd16_some_of_le (img : Image) (o : Int) (h0 : 0 ≤ o) (h : o + 2 ≤ (img.length : Int)) :
    ∃ v, rd16 img o = some v := by
  apply Option.ne_none_iff_exists'.mp
  rw [Ne, rd16_eq_none_iff]
  omega

theorem rd32_some_of_le (img : Image) (o : Int) (h0 : 0 ≤ o) (h : o + 4 ≤ (img.length : Int)) :
    ∃ v, rd32 img o = some v := by
  apply Option.ne_none_iff_exists'.mp
  rw [Ne, rd32_eq_none_iff]
  omega

theorem scanRun_fst (L : SectionLayout) (img : Image) (iVar1 : Int) (rva : Nat) :
    ∀ (fuel : Nat) (p : Int) (k : Nat),
      (scanRun L img iVar1 rva fuel p k).1 = scanLoop L img iVar1 rva fuel p k := by
  intro fuel
  induction fuel with
  | zero => intro p k; rfl
  | succ fuel ih =>
    intro p k
    rw [scanLoop_succ, scanRun]
    rcases ht : rangeTest L img p rva with _ | hit
    · rfl
    cases hit
    · rcases hc : rd16 img (iVar1 + 6) with _ | count
      · rfl
      · simp only [Option.some_bind, Bool.false_eq_true, if_false]
        by_cases hlt : (k + 1) % 2 ^ 32 < count
        · rw [if_pos hlt, if_pos hlt]; exact ih _ _
        · rw [if_neg hlt, if_neg hlt]
    · rfl

theorem findRun_fst (L : SectionLayout) (img : Image) (rva : Nat) :
    (findRun L img rva).1 = _FindPESection L img rva := by
  rcases he : rd32 img 0x3c with _ | e
  · simp [findRun, _FindPESection, he]
  rcases hs : rd16 img (toInt32 e + 0x14) with _ | soh
  · simp [findRun, _FindPESection, he, hs]
  rcases hc : rd16 img (toInt32 e + 6) with _ | count
  · simp [findRun, _FindPESection, he, hs, hc]
  by_cases h0 : count = 0
  · simp [findRun, _FindPESection, he, hs, hc, h0]
  · simp [findRun, _FindPESection, he, hs, hc, h0, scanRun_fst]

/-- The loop entered at descriptor `k` of a table of `n` descriptors examines
descriptors `k, k + 1, ..., k + m - 1` with `k + m <= n`: all but the last fail
the range test, and the loop stops on the last. -/
theorem scanRun_spec {L : SectionLayout} {img : Image} {pe : Int} {n : Nat} (soh : Nat)
    (hn : rd16 img (pe + 6) = some n) (rva : Nat) :
    ∀ (fuel k : Nat), k < n → n ≤ fuel + k →
      ∃ m, 0 < m ∧ k + m ≤ n ∧
        (scanRun L img pe rva fuel (descPtr L pe soh k) k).2 =
          (List.range' k m).map (descPtr L pe soh) ∧
        (∀ i, k ≤ i → i + 1 < k + m →
          rangeTest L img (descPtr L pe soh i) rva = some false) ∧
        (scanRun L img pe rva fuel (descPtr L pe soh k) k).1 =
          stopResult L img rva (descPtr L pe soh (k + m - 1)) ∧
        (rangeTest L img (descPtr L pe soh (k + m - 1)) rva = some false → k + m = n) := by
  have hn16 := rd16_lt hn
  intro fuel
  induction fuel with
  | zero => intro k hk hf; omega
  | succ fuel ih =>
    intro k hk hf
    have hmod : (k + 1) % 2 ^ 32 = k + 1 := Nat.mod_eq_of_lt (by omega)
    rcases ht : rangeTest L img (descPtr L pe soh k) rva with _ | hit
    · refine ⟨1, by omega, by omega, ?_, ?_, ?_, ?_⟩
      · simp [scanRun, ht]
      · intro i h1 h2; omega
      · simp [scanRun, ht, stopResult]
      · simp [ht]
    cases hit
    · by_cases hlt : k + 1 < n
      · obtain ⟨m, hm0, hmn, hvis, hfail, hres, hlast⟩ := ih (k + 1) hlt (by omega)
        have hidx : k + (m + 1) - 1 = k + 1 + m - 1 := by omega
        refine ⟨m + 1, by omega, by omega, ?_, ?_, ?_, ?_⟩
        · rw [scanRun]
          simp only [ht, hn, hmod, if_pos hlt, ← descPtr_succ, hvis]
          rfl
        · intro i h1 h2
          rcases Nat.eq_or_lt_of_le h1 with h | h
          · rw [← h]; exact ht
          · exact hfail i (by omega) (by omega)
        · rw [scanRun]
          simp only [ht, hn, hmod, if_pos hlt, ← descPtr_succ, hres, hidx]
        · rw [hidx]; intro h; have := hlast h; omega
      · refine ⟨1, by omega, by omega, ?_, ?_, ?_, ?_⟩
        · rw [scanRun]
          simp only [ht, hn, hmod, if_neg hlt]
          rfl
        · intro i h1 h2; omega
        · rw [scanRun]
          simp only [ht, hn, hmod, if_neg hlt, stopResult, Nat.add_sub_cancel]
        · intro _; omega
    · refine ⟨1, by omega, by omega, ?_, ?_, ?_, ?_⟩
      · simp [scanRun, ht]
      · intro i h1 h2; omega
      · simp [scanRun, ht, stopResult]
      · simp [ht]

/-- With the three header fields readable, `_FindPESection` examines
descriptors `0, ..., m - 1` for some `m <= n`: all but the last fail the range
test and the routine stops on the last; `m = 0` exactly for an empty table. -/
theorem findRun_spec {L : SectionLayout} {img : Image} {e soh n : Nat} (rva : Nat)
    (he : rd32 img 0x3c = some e) (hsoh : rd16 img (toInt32 e + 0x14) = some soh)
    (hn : rd16 img (toInt32 e + 6) = some n) :
    ∃ m, m ≤ n ∧ (findRun L img rva).2.length = m ∧
      (findRun L img rva).2 = (List.range m).map (descPtr L (toInt32 e) soh) ∧
      (∀ i, i + 1 < m → rangeTest L img (descPtr L (toInt32 e) soh i) rva = some false) ∧
      (0 < m → (findRun L img rva).1 = stopResult L img rva (descPtr L (toInt32 e) soh (m - 1)) ∧
        (rangeTest L img (descPtr L (toInt32 e) soh (m - 1)) rva = some false → m = n)) ∧
      (m = 0 → n = 0 ∧ (findRun L img rva).1 = some none) := by
  have hn16 := rd16_lt hn
  by_cases h0 : n = 0
  · subst h0
    refine ⟨0, le_rfl, ?_, ?_, ?_, ?_, ?_⟩
    · simp [findRun, he, hsoh, hn]
    · simp [findRun, he, hsoh, hn]
    · intro i hi; omega
    · intro h; omega
    · intro _; simp [findRun, he, hsoh, hn]
  · have hrun : findRun L img rva =
        scanRun L img (toInt32 e) rva (2 ^ 16) (descPtr L (toInt32 e) soh 0) 0 := by
      rw [descPtr_zero]
      simp [findRun, he, hsoh, hn, h0]
    obtain ⟨m, hm0, hmn, hvis, hfail, hres, hlast⟩ :=
      scanRun_spec (L := L) soh hn rva (2 ^ 16) 0 (by omega) (by omega)
    rw [← hrun] at hvis hres
    simp only [Nat.zero_add] at hmn hres hlast hfail
    refine ⟨m, hmn, ?_, ?_, ?_, ?_, ?_⟩
    · rw [hvis]; simp
    · rw [hvis, List.range_eq_range']
    · intro i hi; exact hfail i (Nat.zero_le _) hi
    · intro _; exact ⟨hres, hlast⟩
    · intro h; omega

theorem stopResult_none {L : SectionLayout} {img : Image} {rva : Nat} {p : Int}
    (h : stopResult L img rva p = some none) : rangeTest L img p rva = some false := by
  unfold stopResult at h
  rcases ht : rangeTest L img p rva with _ | hit
  · simp [ht] at h
  · cases hit
    · rfl
    · simp [ht] at h

theorem stopResult_some {L : SectionLayout} {img : Image} {rva : Nat} {p q : Int}
    (h : stopResult L img rva p = some (some q)) : q = p := by
  unfold stopResult at h
  rcases ht : rangeTest L img p rva with _ | hit
  · simp [ht] at h
  · cases hit
    · simp [ht] at h
    · simp [ht] at h; exact h.symm

/-- C13: `_FindPESection` returns a result only if it could read the 32-bit
field at `0x3C` (the PE offset), the 16-bit field at `peOffset + 0x14`
(`sizeOfOptionalHeader`) and the 16-bit field at `peOffset + 0x06` (the section
count); with 40-byte records it examines at most `count` descriptors, the
`i`-th at byte offset `peOffset + 0x18 + sizeOfOptionalHeader + 40 * i`, all
`count` of them when it returns `NULL`, and a descriptor it returns lies at
such an offset with `i < count`. -/
theorem find_reads_layout (L : SectionLayout) (hsize : L.size = 40) (img : Image) (rva : Nat) :
    (_FindPESection L img rva ≠ none →
      ∃ e soh n, rd32 img 0x3c = some e ∧ rd16 img (toInt32 e + 0x14) = some soh ∧
        rd16 img (toInt32 e + 0x06) = some n) ∧
    (∀ e soh n, rd32 img 0x3c = some e → rd16 img (toInt32 e + 0x14) = some soh →
      rd16 img (toInt32 e + 0x06) = some n →
      (findRun L img rva).1 = _FindPESection L img rva ∧
      (findRun L img rva).2.length ≤ n ∧
      (∀ i, i < (findRun L img rva).2.length →
        (findRun L img rva).2[i]? = some (toInt32 e + 0x18 + (soh : Int) + 40 * (i : Int))) ∧
      (_FindPESection L img rva = some none → (findRun L img rva).2.length = n) ∧
      (∀ p, _FindPESection L img rva = some (some p) →
        ∃ i, i < n ∧ p = toInt32 e + 0x18 + (soh : Int) + 40 * (i : Int))) := by
  have hptr : ∀ (pe : Int) (soh i : Nat),
      descPtr L pe soh i = pe + 0x18 + (soh : Int) + 40 * (i : Int) := by
    intro pe soh i
    unfold descPtr
    rw [hsize]
    push_cast
    ring
  constructor
  · intro h
    rcases he : rd32 img 0x3c with _ | e
    · exact absurd (by simp [_FindPESection, he]) h
    rcases hs : rd16 img (toInt32 e + 0x14) with _ | soh
    · exact absurd (by simp [_FindPESection, he, hs]) h
    rcases hc : rd16 img (toInt32 e + 6) with _ | n
    · exact absurd (by simp [_FindPESection, he, hs, hc]) h
    exact ⟨e, soh, n, rfl, hs, hc⟩
  · intro e soh n he hsoh hn
    obtain ⟨m, hmn, hlen, hvis, _, hstop, hzero⟩ := findRun_spec (L := L) rva he hsoh hn
    refine ⟨findRun_fst L img rva, by omega, ?_, ?_, ?_⟩
    · intro i hi
      rw [hvis]
      rw [hlen] at hi
      simp [hi, hptr]
    · intro hf
      rw [← findRun_fst] at hf
      rw [hlen]
      rcases Nat.eq_zero_or_pos m with h0 | hpos
      · rw [h0]; exact (hzero h0).1.symm
      · obtain ⟨hres, hlast⟩ := hstop hpos
        rw [hres] at hf
        exact hlast (stopResult_none hf)
    · intro p hf
      rw [← findRun_fst] at hf
      rcases Nat.eq_zero_or_pos m with h0 | hpos
      · rw [(hzero h0).2] at hf; cases hf
      · obtain ⟨hres, _⟩ := hstop hpos
        rw [hres] at hf
        exact ⟨m - 1, by omega, by rw [stopResult_some hf, hptr]⟩

/-- C13 on the scenario, whose PE offset is `0x40` and whose optional header
has 2 bytes: the probe `0x2500` examines the records at `0x5A` and `0x82`. -/
theorem find_reads_layout_witness :
    (findRun stdLayout scenario 0x2500).2 = [0x5A, 0x82] ∧
      (findRun stdLayout scenario 0x2500).2[1]? =
        some (toInt32 0x40 + 0x18 + ((2 : Nat) : Int) + 40 * ((1 : Nat) : Int)) :=
  ⟨by decide,
    ((find_reads_layout stdLayout rfl scenario 0x2500).2 0x40 2 2 (by decide) (by decide)
      (by decide)).2.2.1 1 (by decide)⟩

/-- C14: with the header fields readable and `count` the 16-bit section
count, the scan of `_FindPESection` ends after examining at most `count`
descriptors, `count <= 65535`.  The descriptors examined are exactly
`0, 1, ..., m - 1` in this order (`findRun` computes the result of
`_FindPESection`, with the pointers examined beside it): none for an empty
table, at least descriptor 0 otherwise; every descriptor before the last fails
the range test; the scan goes on until the last one examined passes the test,
or cannot be read, or is descriptor `count - 1`; the result is the last
descriptor examined when it passes the test and `NULL` when all `count`
descriptors were examined and failed; a descriptor that passes the test is
the last examined and is the result.  The bound `2^16` on the iterations of
`scanLoop` is never the cause of the end of the scan: every larger bound gives
the same result. -/
theorem scan_bounded (L : SectionLayout) (img : Image) (rva e soh n : Nat)
    (he : rd32 img 0x3c = some e) (hsoh : rd16 img (toInt32 e + 0x14) = some soh)
    (hn : rd16 img (toInt32 e + 6) = some n) :
    (findRun L img rva).1 = _FindPESection L img rva ∧
    n ≤ 65535 ∧ (findRun L img rva).2.length ≤ n ∧
    (findRun L img rva).2 =
      (List.range (findRun L img rva).2.length).map (descPtr L (toInt32 e) soh) ∧
    ((findRun L img rva).2.length = 0 ↔ n = 0) ∧
    (∀ i, i + 1 < (findRun L img rva).2.length →
      rangeTest L img (descPtr L (toInt32 e) soh i) rva = some false) ∧
    (∀ i, i + 1 = (findRun L img rva).2.length →
      _FindPESection L img rva = stopResult L img rva (descPtr L (toInt32 e) soh i) ∧
        (rangeTest L img (descPtr L (toInt32 e) soh i) rva = some false → i + 1 = n)) ∧
    (∀ p, _FindPESection L img rva = some (some p) →
      ∃ i, i + 1 = (findRun L img rva).2.length ∧ p = descPtr L (toInt32 e) soh i ∧
        rangeTest L img p rva = some true) ∧
    (_FindPESection L img rva = some none →
      (findRun L img rva).2.length = n ∧
        ∀ i, i < n → rangeTest L img (descPtr L (toInt32 e) soh i) rva = some false) ∧
    (∀ i, i < (findRun L img rva).2.length →
      rangeTest L img (descPtr L (toInt32 e) soh i) rva = some true →
      i + 1 = (findRun L img rva).2.length ∧
        _FindPESection L img rva = some (some (descPtr L (toInt32 e) soh i))) ∧
    (∀ fuel, 2 ^ 16 ≤ fuel →
      scanLoop L img (toInt32 e) rva fuel (descPtr L (toInt32 e) soh 0) 0 =
        scanLoop L img (toInt32 e) rva (2 ^ 16) (descPtr L (toInt32 e) soh 0) 0) := by
  have hn16 := rd16_lt hn
  obtain ⟨m, hmn, hlen, hvis, hfail, hstop, hzero⟩ := findRun_spec (L := L) rva he hsoh hn
  have hfst := findRun_fst L img rva
  have hlastres : ∀ i, i + 1 = m →
      _FindPESection L img rva = stopResult L img rva (descPtr L (toInt32 e) soh i) ∧
        (rangeTest L img (descPtr L (toInt32 e) soh i) rva = some false → i + 1 = n) := by
    intro i hi
    have hi' : m - 1 = i := by omega
    obtain ⟨h1, h2⟩ := hstop (by omega)
    rw [hi'] at h1 h2
    exact ⟨by rw [← hfst, h1], fun h => by rw [hi]; exact h2 h⟩
  refine ⟨hfst, by omega, by omega, ?_, ?_, ?_, ?_, ?_, ?_, ?_, ?_⟩
  · rw [hlen]; exact hvis
  · rw [hlen]
    constructor
    · intro h; exact (hzero h).1
    · intro h; omega
  · rw [hlen]; exact hfail
  · rw [hlen]; exact hlastres
  · intro p hf
    rw [hlen]
    rcases Nat.eq_zero_or_pos m with h0 | hpos
    · rw [← hfst, (hzero h0).2] at hf; cases hf
    · obtain ⟨h1, _⟩ := hlastres (m - 1) (by omega)
      rw [h1] at hf
      have hp := stopResult_some hf
      refine ⟨m - 1, by omega, hp, ?_⟩
      rw [hp]
      unfold stopResult at hf
      rcases ht : rangeTest L img (descPtr L (toInt32 e) soh (m - 1)) rva with _ | hit
      · simp [ht] at hf
      · cases hit
        · simp [ht] at hf
        · rfl
  · intro hf
    rw [hlen]
    rcases Nat.eq_zero_or_pos m with h0 | hpos
    · have := (hzero h0).1
      exact ⟨by omega, fun i hi => by omega⟩
    · obtain ⟨h1, h2⟩ := hlastres (m - 1) (by omega)
      rw [h1] at hf
      have hlast := stopResult_none hf
      have hmn' : m = n := by have := h2 hlast; omega
      refine ⟨hmn', fun i hi => ?_⟩
      by_cases hil : i + 1 < m
      · exact hfail i hil
      · have : i = m - 1 := by omega
        rw [this]; exact hlast
  · rw [hlen]
    intro i hi ht
    have hlast : i + 1 = m := by
      by_contra hne
      have := hfail i (by omega)
      rw [ht] at this
      cases this
    refine ⟨hlast, ?_⟩
    rw [(hlastres i hlast).1]
    simp [stopResult, ht]
  · intro fuel hf
    exact scanLoop_fuel L img (toInt32 e) rva fuel (2 ^ 16) _ 0 (by norm_num) (by omega)
      (by omega)

/-- C14 on the scenario, whose section count is 2: the probe `0x1500`
examines descriptor 0 only and returns it; the probe `0x3000`, in no section,
examines both descriptors. -/
theorem scan_bounded_witness :
    (findRun stdLayout scenario 0x1500).2 = [descPtr stdLayout 0x40 2 0] ∧
      _FindPESection stdLayout scenario 0x1500 = some (some (descPtr stdLayout 0x40 2 0)) ∧
      (findRun stdLayout scenario 0x3000).2.length = 2 ∧
      (findRun stdLayout scenario 0x3000).2 =
        [descPtr stdLayout 0x40 2 0, descPtr stdLayout 0x40 2 1] :=
  ⟨by decide,
    ((scan_bounded stdLayout scenario 0x1500 0x40 2 2 (by decide) (by decide)
      (by decide)).2.2.2.2.2.2.2.2.2.1 0 (by decide) (by decide)).2,
    ((scan_bounded stdLayout scenario 0x3000 0x40 2 2 (by decide) (by decide)
      (by decide)).2.2.2.2.2.2.2.2.1 (by decide)).1,
    by decide⟩

/-- The example layout is laid out as the spec describes. -/
theorem specScenario_layout : SpecLayout specLayout := by
  unfold SpecLayout specLayout
  decide

/-- An image long enough for its header and for `n` records of 40 bytes has a
readable section table. -/
theorem sectionTable_of_length {L : SectionLayout} {img : Image} {e soh n : Nat}
    (hsize : L.size = 40) (hva : L.offVirtualAddress + 4 ≤ 40) (hmisc : L.offMisc + 4 ≤ 40)
    (he : rd32 img 0x3c = some e) (hpos : 0 ≤ toInt32 e)
    (hsoh : rd16 img (toInt32 e + 0x14) = some soh) (hn : rd16 img (toInt32 e + 6) = some n)
    (htab : toInt32 e + 0x18 + (soh : Int) + 40 * (n : Int) ≤ (img.length : Int)) :
    SectionTable L img (toInt32 e) soh n
      (fun i => (rd32 img (descPtr L (toInt32 e) soh i + L.offVirtualAddress)).getD 0)
      (fun i => (rd32 img (descPtr L (toInt32 e) soh i + L.offMisc)).getD 0) := by
  refine ⟨by rw [he]; rfl, hsoh, hn, ?_, ?_⟩
  · intro i hi
    have hp : descPtr L (toInt32 e) soh i = (soh : Int) + 0x18 + toInt32 e + 40 * (i : Int) := by
      unfold descPtr; rw [hsize]; push_cast; ring
    obtain ⟨v, hv⟩ := rd32_some_of_le img
      (descPtr L (toInt32 e) soh i + L.offVirtualAddress) (by rw [hp]; omega)
      (by rw [hp]; omega)
    simp only [hv, Option.getD_some]
  · intro i hi
    have hp : descPtr L (toInt32 e) soh i = (soh : Int) + 0x18 + toInt32 e + 40 * (i : Int) := by
      unfold descPtr; rw [hsize]; push_cast; ring
    obtain ⟨v, hv⟩ := rd32_some_of_le img
      (descPtr L (toInt32 e) soh i + L.offMisc) (by rw [hp]; omega) (by rw [hp]; omega)
    simp only [hv, Option.getD_some]

/-- C16: on a buffer of length `len` whose PE offset at `0x3C` is not negative
as a signed 32-bit value, with `len >= 0x40`, `len >= peOffset + 0x1A` and
`len >= peOffset + 0x18 + sizeOfOptionalHeader + 40 * count`, and with the
three fields of the 40-byte record inside the record, no read of
`_ValidateImageBase`, `_FindPESection` and `_IsNonwritableInCurrentImage` lies
outside the buffer: each returns a result, for every `rva` and every target
address. -/
theorem reads_in_bounds (L : SectionLayout) (hsize : L.size = 40)
    (hva : L.offVirtualAddress + 4 ≤ 40) (hmisc : L.offMisc + 4 ≤ 40)
    (hch : L.offCharacteristics + 4 ≤ 40) (img : Image) (e soh n : Nat)
    (h40 : 0x40 ≤ img.length) (he : rd32 img 0x3c = some e) (hpos : 0 ≤ toInt32 e)
    (hhdr : toInt32 e + 0x1A ≤ (img.length : Int))
    (hsoh : rd16 img (toInt32 e + 0x14) = some soh) (hn : rd16 img (toInt32 e + 6) = some n)
    (htab : toInt32 e + 0x18 + (soh : Int) + 40 * (n : Int) ≤ (img.length : Int)) :
    (∃ v, _ValidateImageBase img = some v) ∧
    (∀ rva, ∃ r, _FindPESection L img rva = some r) ∧
    (∀ pTarget, ∃ b, _IsNonwritableInCurrentImage L img pTarget = some b) := by
  obtain ⟨d, hd⟩ := rd16_some_of_le img 0 le_rfl (by omega)
  obtain ⟨sg, hsg⟩ := rd32_some_of_le img (toInt32 e) hpos (by omega)
  obtain ⟨mg, hmg⟩ := rd16_some_of_le img (toInt32 e + 0x18) (by omega) (by omega)
  have H : Header img d (toInt32 e) sg mg := ⟨hd, by rw [he]; rfl, hsg, hmg⟩
  have hV := validate_of_header H
  have T := sectionTable_of_length hsize hva hmisc he hpos hsoh hn htab
  have hF : ∀ rva, ∃ r, _FindPESection L img rva = some r := by
    intro rva
    rcases find_total T rva with ⟨i, _, _, _, hf⟩ | ⟨_, hf⟩
    · exact ⟨_, hf⟩
    · exact ⟨_, hf⟩
  refine ⟨⟨_, hV⟩, hF, ?_⟩
  intro pTarget
  by_cases hc : d = 0x5A4D ∧ sg = 0x4550 ∧ mg = 0x20B
  swap
  · rw [if_neg hc] at hV
    exact ⟨0, isNonwritable_invalid pTarget hV⟩
  rw [if_pos hc] at hV
  rcases find_total T (rvaOf pTarget) with ⟨i, hi, _, _, hf⟩ | ⟨_, hf⟩
  · have hp : descPtr L (toInt32 e) soh i = (soh : Int) + 0x18 + toInt32 e + 40 * (i : Int) := by
      unfold descPtr; rw [hsize]; push_cast; ring
    obtain ⟨c, hcr⟩ := rd32_some_of_le img
      (descPtr L (toInt32 e) soh i + L.offCharacteristics) (by rw [hp]; omega)
      (by rw [hp]; omega)
    exact ⟨_, isNonwritable_found hV hf hcr⟩
  · exact ⟨0, isNonwritable_not_found hV hf⟩

theorem scenario_length : scenario.length = 170 := by rfl

/-- C16 on the scenario, of length 170 = `0x40 + 0x18 + 2 + 40 * 2`: the three
routines return a result. -/
theorem reads_in_bounds_witness :
    scenario.length = 170 ∧ (∃ v, _ValidateImageBase scenario = some v) ∧
      (∀ rva, ∃ r, _FindPESection stdLayout scenario rva = some r) ∧
      (∀ pTarget, ∃ b, _IsNonwritableInCurrentImage stdLayout scenario pTarget = some b) :=
  ⟨scenario_length,
    reads_in_bounds stdLayout rfl (by decide) (by decide) (by decide) scenario 0x40 2 2
      (by rw [scenario_length]; decide) (by decide) (by decide)
      (by rw [scenario_length]; decide) (by decide) (by decide)
      (by rw [scenario_length]; decide)⟩

/-! ## Overlapping descriptors -/

/-- The verdict of the oracle on a valid image with a readable table is that
of the first descriptor whose range holds the `rva`. -/
theorem isNonwritable_first_match {L : SectionLayout} {img : Image} {pe : Int} {soh n : Nat}
    {va vs : Nat → Nat} (T : SectionTable L img pe soh n va vs) {pTarget i c : Nat}
    (hv : _ValidateImageBase img = some 1) (hi : i < n)
    (hin : InRange32 (va i) (vs i) (rvaOf pTarget))
    (hno : ∀ j, j < i → ¬ InRange32 (va j) (vs j) (rvaOf pTarget))
    (hc : rd32 img (descPtr L pe soh i + L.offCharacteristics) = some c) :
    _IsNonwritableInCurrentImage L img pTarget = some (if c.testBit 31 then 0 else 1) :=
  isNonwritable_found hv (find_first T (rvaOf pTarget) i hi hin hno) hc

/-- C17: on a valid image with a readable table the verdict is decided by
the `Characteristics` of the first descriptor in table order whose range holds
the `rva`, whatever the later descriptors hold; and there is a valid image
(`boundaryImage`) and a target address (`imageBase + 0x2500`) such that
descriptor 1, marked writable, contains the address, and the oracle returns 1,
because descriptor 0, not marked writable, contains it too. -/
theorem overlap_decides_verdict :
    (∀ (L : SectionLayout) (img : Image) (pe : Int) (soh n : Nat) (va vs : Nat → Nat)
      (pTarget i c : Nat), SectionTable L img pe soh n va vs →
      _ValidateImageBase img = some 1 → i < n → InRange32 (va i) (vs i) (rvaOf pTarget) →
      (∀ j, j < i → ¬ InRange32 (va j) (vs j) (rvaOf pTarget)) →
      rd32 img (descPtr L pe soh i + L.offCharacteristics) = some c →
      _IsNonwritableInCurrentImage L img pTarget = some (if c.testBit 31 then 0 else 1)) ∧
    (∃ (img : Image) (pTarget : Nat) (pe : Int) (soh n : Nat) (va vs : Nat → Nat) (c0 c1 : Nat),
      _ValidateImageBase img = some 1 ∧ SectionTable stdLayout img pe soh n va vs ∧ 1 < n ∧
      InRange (va 1) (vs 1) (rvaOf pTarget) ∧
      rd32 img (descPtr stdLayout pe soh 1 + stdLayout.offCharacteristics) = some c1 ∧
      c1.testBit 31 = true ∧
      InRange (va 0) (vs 0) (rvaOf pTarget) ∧
      rd32 img (descPtr stdLayout pe soh 0 + stdLayout.offCharacteristics) = some c0 ∧
      c0.testBit 31 = false ∧
      _FindPESection stdLayout img (rvaOf pTarget) = some (some (descPtr stdLayout pe soh 0)) ∧
      _IsNonwritableInCurrentImage stdLayout img pTarget = some 1) :=
  ⟨fun _ _ _ _ _ _ _ _ _ _ T hv hi hin hno hc => isNonwritable_first_match T hv hi hin hno hc,
    boundaryImage, imageBase + 0x2500, 0x40, 2, 4, _, _, 0x60000020, 0xC0000040, by decide,
    boundary_table, by decide, by decide, by decide, by decide, by decide, by decide, by decide,
    by decide, by decide⟩

/-! ## The bytes that follow a buffer -/

theorem load16_bind {α : Type} (o : Int) (f : Nat → Exec α) (s : Machine) :
    (load16 o >>= f) s = (rd16 s.mem o).bind (fun v => f v s) := by
  show (StateT.bind (load16 o) f) s = _
  unfold StateT.bind load16
  cases rd16 s.mem o <;> rfl

theorem load32_bind {α : Type} (o : Int) (f : Nat → Exec α) (s : Machine) :
    (load32 o >>= f) s = (rd32 s.mem o).bind (fun v => f v s) := by
  show (StateT.bind (load32 o) f) s = _
  unfold StateT.bind load32
  cases rd32 s.mem o <;> rfl

theorem exec_bind {α β : Type} (x : Exec α) (f : α → Exec β) (s : Machine) (r : Option α)
    (h : x s = r.map (fun a => (a, s))) : (x >>= f) s = r.bind (fun a => f a s) := by
  show (StateT.bind x f) s = _
  unfold StateT.bind
  show (x s >>= _) = _
  rw [h]
  cases r <;> rfl

theorem exec_pure {α : Type} (a : α) (s : Machine) : (pure a : Exec α) s = some (a, s) := rfl

theorem load32_map {α : Type} (o : Int) (f : Nat → α) (s : Machine) :
    (f <$> load32 o) s = (rd32 s.mem o).map (fun v => (f v, s)) := by
  show (StateT.map f (load32 o)) s = _
  unfold StateT.map load32
  cases rd32 s.mem o <;> rfl

theorem execValidate_eq (s : Machine) :
    execValidateImageBase s = (_ValidateImageBase s.mem).map (fun r => (r, s)) := by
  unfold execValidateImageBase _ValidateImageBase
  rw [load16_bind]
  rcases h0 : rd16 s.mem 0 with _ | d
  · rfl
  by_cases hd : toInt16 d = 0x5a4d
  swap
  · simp [hd, exec_pure]
  rcases he : rd32 s.mem 0x3c with _ | e
  · simp [hd, load32_bind, he]
  rcases hsg : rd32 s.mem (toInt32 e) with _ | sg
  · simp [hd, load32_bind, he, hsg]
  by_cases hs : toInt32 sg = 0x4550
  swap
  · simp [hd, load32_bind, he, hsg, hs, exec_pure]
  rcases hm : rd16 s.mem (toInt32 e + 0x18) with _ | m
  · simp [hd, load32_bind, load16_bind, he, hsg, hs, hm]
  by_cases hmm : toInt16 m = 0x20b
  · simp [hd, load32_bind, load16_bind, he, hsg, hs, hm, hmm, exec_pure]
  · simp [hd, load32_bind, load16_bind, he, hsg, hs, hm, hmm, exec_pure]

theorem execRangeTest_eq (L : SectionLayout) (p : Int) (rva : Nat) (s : Machine) :
    execRangeTest L p rva s = (rangeTest L s.mem p rva).map (fun r => (r, s)) := by
  unfold execRangeTest rangeTest
  rw [load32_bind]
  rcases hva : rd32 s.mem (p + L.offVirtualAddress) with _ | va
  · rfl
  by_cases h : va ≤ rva
  swap
  · simp [h, exec_pure]
  rcases hvs : rd32 s.mem (p + L.offMisc) with _ | vs
  · simp [h, load32_map, hvs]
  · simp [h, load32_map, hvs]

theorem execScanLoop_eq (L : SectionLayout) (iVar1 : Int) (rva : Nat) :
    ∀ (fuel : Nat) (p : Int) (k : Nat) (s : Machine),
      execScanLoop L iVar1 rva fuel p k s =
        (scanLoop L s.mem iVar1 rva fuel p k).map (fun r => (r, s)) := by
  intro fuel
  induction fuel with
  | zero => intro p k s; rfl
  | succ fuel ih =>
    intro p k s
    rw [scanLoop_succ, execScanLoop,
      exec_bind _ _ s (rangeTest L s.mem p rva) (execRangeTest_eq L p rva s)]
    rcases rangeTest L s.mem p rva with _ | hit
    · rfl
    cases hit
    · simp [load16_bind]
      rcases rd16 s.mem (iVar1 + 6) with _ | count
      · rfl
      by_cases hlt : (k + 1) % 4294967296 < count
      · simp [hlt, ih]
      · simp [hlt, exec_pure]
    · simp [exec_pure]

theorem execFind_eq (L : SectionLayout) (rva : Nat) (s : Machine) :
    execFindPESection L rva s = (_FindPESection L s.mem rva).map (fun r => (r, s)) := by
  unfold execFindPESection _FindPESection
  rcases he : rd32 s.mem 0x3c with _ | e
  · simp [load32_bind, he]
  rcases hs : rd16 s.mem (toInt32 e + 0x14) with _ | soh
  · simp [load32_bind, load16_bind, he, hs]
  rcases hc : rd16 s.mem (toInt32 e + 6) with _ | count
  · simp [load32_bind, load16_bind, he, hs, hc]
  by_cases h0 : count = 0
  · simp [load32_bind, load16_bind, he, hs, hc, h0, exec_pure]
  · simp [load32_bind, load16_bind, he, hs, hc, h0, execScanLoop_eq]

theorem execIsNonwritable_eq (L : SectionLayout) (pTarget : Nat) (s : Machine) :
    execIsNonwritableInCurrentImage L pTarget s =
      (_IsNonwritableInCurrentImage L s.mem pTarget).map (fun r => (r, s)) := by
  unfold execIsNonwritableInCurrentImage _IsNonwritableInCurrentImage
  rw [exec_bind _ _ s (_ValidateImageBase s.mem) (execValidate_eq s)]
  rcases hV : _ValidateImageBase s.mem with _ | v
  · rfl
  by_cases hv : v = 0
  · simp [hv, exec_pure]
  simp only [Option.some_bind, ne_eq, hv, not_false_eq_true, if_true]
  rw [exec_bind _ _ s (_FindPESection L s.mem (rvaOf pTarget)) (execFind_eq L _ s)]
  rcases hF : _FindPESection L s.mem (rvaOf pTarget) with _ | r
  · simp [hv]
  rcases r with _ | q
  · simp [exec_pure, hv]
  rcases hc : rd32 s.mem (q + L.offCharacteristics) with _ | c
  · simp [load32_map, load32_bind, hc, hv]
  · simp [load32_map, load32_bind, hc, exec_pure, hv]

/-- C12: executed on a machine whose state is the mapped memory, each of the
three routines returns its result and the state it was started in: no byte of
the image is written and there is no other state.  Hence a second call of the
oracle with the same address returns the same result as the first, and leaves
the state unchanged again. -/
theorem oracle_pure (L : SectionLayout) (pTarget : Nat) (s : Machine) :
    execValidateImageBase s = (_ValidateImageBase s.mem).map (fun r => (r, s)) ∧
    execFindPESection L (rvaOf pTarget) s =
      (_FindPESection L s.mem (rvaOf pTarget)).map (fun r => (r, s)) ∧
    execIsNonwritableInCurrentImage L pTarget s =
      (_IsNonwritableInCurrentImage L s.mem pTarget).map (fun r => (r, s)) ∧
    (∀ r s1, execIsNonwritableInCurrentImage L pTarget s = some (r, s1) →
      s1 = s ∧ execIsNonwritableInCurrentImage L pTarget s1 = some (r, s1)) ∧
    execTwice L pTarget s =
      (_IsNonwritableInCurrentImage L s.mem pTarget).map (fun r => ((r, r), s)) := by
  have hI := execIsNonwritable_eq L pTarget s
  refine ⟨execValidate_eq s, execFind_eq L _ s, hI, ?_, ?_⟩
  · intro r s1 h
    rw [hI] at h
    rcases hr : _IsNonwritableInCurrentImage L s.mem pTarget with _ | v
    · rw [hr] at h; cases h
    · rw [hr] at h
      simp only [Option.map_some', Option.some.injEq, Prod.mk.injEq] at h
      obtain ⟨h1, h2⟩ := h
      subst h1 h2
      exact ⟨rfl, by rw [hI, hr]; rfl⟩
  · unfold execTwice
    rw [exec_bind _ _ s _ hI]
    rcases hr : _IsNonwritableInCurrentImage L s.mem pTarget with _ | v
    · rfl
    · simp only [Option.some_bind]
      rw [exec_bind _ _ s _ hI, hr]
      rfl

/-- C12 on the scenario: two calls at `imageBase + 0x1500` both return 1 and
leave the memory as it was; on the two-byte memory `MZ` a store to byte 0
before the call is visible in the state after it. -/
theorem oracle_pure_witness :
    execTwice stdLayout (imageBase + 0x1500) (Machine.mk scenario) =
        some ((1, 1), Machine.mk scenario) ∧
      execStoreThenCall stdLayout (imageBase + 0x1500) (Machine.mk [0x4D, 0x5A]) =
        some (0, Machine.mk [0, 0x5A]) :=
  ⟨(oracle_pure stdLayout (imageBase + 0x1500) (Machine.mk scenario)).2.2.2.2.trans
      (by rw [show _IsNonwritableInCurrentImage stdLayout (Machine.mk scenario).mem
        (imageBase + 0x1500) = some 1 from by decide]; rfl), by decide⟩

end PE
